import Mathlib

/-!
Verification of the phockup media-sorting pipeline (`src/phockup.py`).

The pipeline is embedded shallowly: `os.path` helpers become pure string
functions, the filesystem becomes an explicit map from paths to optional
file contents plus a set of directories, and every filesystem call made by
the Python code is reflected both in the returned state and in an event
trace.  External collaborators (`Exif`, `Date`, `Printer`) are modelled as
inputs: metadata extraction and date resolution results are parameters of
the functions that consume them, exactly at the call sites of the source.

File contents are abstracted to natural numbers and the SHA-256 digest is
idealised as an injective function of the content (modelled as the
identity), so "equal checksum" coincides with "equal content".
-/

/-- Index of the last occurrence of a character in a list, if any. -/
def rfindChar : List Char → Char → Option Nat
  | [], _ => none
  | x :: xs, c =>
    match rfindChar xs c with
    | some i => some (i + 1)
    | none => if x = c then some 0 else none

/-- Model of `os.path.splitext` (posix semantics): split at the last dot,
provided it lies after the last separator and at least one character of the
basename before it is not itself a dot (leading dots never start an
extension). -/
def splitext (p : String) : String × String :=
  let l := p.data
  match rfindChar l '.' with
  | none => (p, "")
  | some d =>
    let s0 : Nat :=
      match rfindChar l '/' with
      | none => 0
      | some s => s + 1
    if s0 ≤ d ∧ ((l.drop s0).take (d - s0)).any (fun c => c != '.') = true then
      (String.mk (l.take d), String.mk (l.drop d))
    else
      (p, "")

/-- Model of `os.path.basename`: everything after the last separator. -/
def basename (p : String) : String :=
  match rfindChar p.data '/' with
  | none => p
  | some s => String.mk (p.data.drop (s + 1))

/-- Model of `os.path.sep.join` with the posix separator. -/
def joinPath (parts : List String) : String := String.intercalate "/" parts

/-- Model of Python `'%0wd' % n` for a nonnegative `n`: zero-pad to width
`w`, never truncate. -/
def padInt (w n : Nat) : String :=
  let s := toString n
  if s.length < w then String.mk (List.replicate (w - s.length) '0') ++ s else s

/-- Python `str.startswith`, via the character lists (kernel-reducible). -/
def pyStartsWith (s pre : String) : Bool :=
  s.data.take pre.data.length == pre.data

/-- Python `str.endswith`, via the character lists (kernel-reducible). -/
def pyEndsWith (s suf : String) : Bool :=
  suf.data.length ≤ s.data.length &&
    s.data.drop (s.data.length - suf.data.length) == suf.data

/-- Python `str.lower` on the ASCII range. -/
def pyLower (s : String) : String := String.mk (s.data.map Char.toLower)

/-- The regex metacharacter `.` without `re.DOTALL`: any character except a
newline. -/
def dotAny (c : Char) : Bool := c != '\n'

/-- The branch `image/.+` of the image pattern in `get_file_type`. -/
def imageCore (s : String) : Bool :=
  pyStartsWith s "image/" && decide (6 < s.data.length) && (s.data.drop 6).all dotAny

/-- The literal source text of the photoshop alternative of the image
pattern; its two unescaped dots are regex wildcards. -/
def photoshopChars : List Char := "application/vnd.adobe.photoshop".data

/-- One pattern character against one subject character: an (unescaped) dot
matches any non-newline character, anything else matches itself. -/
def patCharMatch (p c : Char) : Bool := if p = '.' then dotAny c else p == c

/-- The branch `application/vnd.adobe.photoshop` of the image pattern in
`get_file_type`, with its dots treated as the regex treats them. -/
def photoshopCore (s : String) : Bool :=
  s.data.length == photoshopChars.length &&
    (List.zipWith patCharMatch photoshopChars s.data).all (fun b => b)

/-- The pattern `video/.*` of `get_file_type`. -/
def videoCore (s : String) : Bool :=
  pyStartsWith s "video/" && (s.data.drop 6).all dotAny

/-- `re.match` of a pattern of the shape `^(...)$`: the whole subject
matches, or the subject ends with a newline and everything before it
matches (Python `$` also matches just before a final newline). -/
def regexAnchoredMatch (body : String → Bool) (s : String) : Bool :=
  body s || (pyEndsWith s "\n" && body (String.mk s.data.dropLast))

inductive FileType where
  | image
  | video
deriving DecidableEq

/-- `Phockup.get_file_type`: classify a MIME type via the two compiled
regexes; `None` (here `none`) for anything that matches neither. -/
def get_file_type (mimetype : String) : Option FileType :=
  if regexAnchoredMatch (fun s => imageCore s || photoshopCore s) mimetype then some .image
  else if regexAnchoredMatch videoCore mimetype then some .video
  else none

/-- File contents, abstracted: two files are byte-identical iff their
`Content` values are equal. -/
abbrev Content := Nat

/-- `Phockup.checksum`: SHA-256 over the whole content, idealised as an
injective digest, i.e. the identity on abstract contents. -/
def checksum (c : Content) : Content := c

/-- The filesystem state: regular files with their contents, and the set of
directories.  `makedirs` is modelled as registering the exact requested
path, which is sufficient because every later probe uses the same exact
path string. -/
structure FS where
  files : String → Option Content
  dirs : String → Bool

def FS.setFile (fs : FS) (p : String) (c : Content) : FS :=
  ⟨fun q => if q = p then some c else fs.files q, fs.dirs⟩

def FS.delFile (fs : FS) (p : String) : FS :=
  ⟨fun q => if q = p then none else fs.files q, fs.dirs⟩

def FS.addDir (fs : FS) (p : String) : FS :=
  ⟨fs.files, fun q => if q = p then true else fs.dirs q⟩

/-- Build a concrete filesystem from association lists. -/
def fsOf (fl : List (String × Content)) (dl : List String) : FS :=
  ⟨fun p => (fl.find? (fun x => x.1 == p)).map (fun x => x.2),
   fun p => dl.contains p⟩

/-- Observable actions of one run: printer output, existence probes and the
four mutating filesystem calls the source makes. -/
inductive Event where
  | report (msg : String)
  | isDirProbe (p : String)
  | isFileProbe (p : String)
  | mkdirs (p : String)
  | fcopy (src dst : String)
  | fmove (src dst : String)
  | flink (src dst : String)
deriving DecidableEq

def eventMutates : Event → Bool
  | .mkdirs _ => true
  | .fcopy _ _ => true
  | .fmove _ _ => true
  | .flink _ _ => true
  | _ => false

def eventTransfers : Event → Bool
  | .fcopy _ _ => true
  | .fmove _ _ => true
  | .flink _ _ => true
  | _ => false

def eventProbesFile : Event → Bool
  | .isFileProbe _ => true
  | _ => false

/-- The datetime object stored under the key `date` of a resolved date. -/
structure Datetime where
  year : Nat
  month : Nat
  day : Nat
  hour : Nat
  minute : Nat
  second : Nat

/-- What `Date(file).from_exif(...)` hands back when it succeeds: a mapping
with a `date` datetime and a `subseconds` string (empty means falsy).  A
failed resolution is the Python `None`, modelled as `Option.none` at the
use sites. -/
structure DateInfo where
  date : Datetime
  subseconds : String

/-- The slice of `Exif(file).data()` the pipeline reads: whether a truthy
mapping came back and whether it contains a `MIMEType` key.  A falsy or
absent mapping and a mapping without the key behave identically in the
source, so both are `mimeType := none`. -/
structure ExifData where
  mimeType : Option String

/-- The configuration fields of `Phockup.__init__` that the processing
pipeline reads.  `dirFormat` models `strftime` applied to the configured
`dir_format` pattern. -/
structure Config where
  output : String
  dirFormat : Datetime → String
  move : Bool
  link : Bool
  original_filenames : Bool
  dry_run : Bool
  file_type : Option FileType

/-- `strftime` for the default `dir_format` pattern `%Y/%m/%d`. -/
def defaultDirFormat (d : Datetime) : String :=
  joinPath [padInt 4 d.year, padInt 2 d.month, padInt 2 d.day]

/-- `Phockup.get_output_dir`: the dated directory under the output root, or
the `unknown` bucket when reading the date raises; ensures the directory
exists unless in dry-run mode. -/
def get_output_dir (cfg : Config) (fs : FS) (date : Option DateInfo) :
    String × FS × List Event :=
  let fullpath :=
    match date with
    | some d => joinPath [cfg.output, cfg.dirFormat d.date]
    | none => joinPath [cfg.output, "unknown"]
  if fs.dirs fullpath = false ∧ cfg.dry_run = false then
    (fullpath, fs.addDir fullpath, [.isDirProbe fullpath, .mkdirs fullpath])
  else
    (fullpath, fs, [.isDirProbe fullpath])

/-- `Phockup.get_file_name`: the `YYYYMMDD-HHMMSS[subseconds].<ext>` name
from the resolved date, or the original basename when original names are
requested or reading the date raises. -/
def get_file_name (cfg : Config) (file : String) (date : Option DateInfo) : String :=
  if cfg.original_filenames then basename file
  else
    match date with
    | some d =>
      padInt 4 d.date.year ++ padInt 2 d.date.month ++ padInt 2 d.date.day ++ "-" ++
        padInt 2 d.date.hour ++ padInt 2 d.date.minute ++ padInt 2 d.date.second ++
        (if d.subseconds != "" then d.subseconds else "") ++ (splitext file).2
    | none => basename file

/-- Lines 198-201 of the source: the target file type is computed only when
a truthy exif mapping with a `MIMEType` key is present. -/
def exifType (exif : Option ExifData) : Option FileType :=
  match exif with
  | some e =>
    match e.mimeType with
    | some m => get_file_type m
    | none => none
  | none => none

structure PlanResult where
  output : String
  name : String
  path : String
  ftype : Option FileType

/-- `Phockup.get_file_name_and_path`.  The resolved date is a parameter
standing for the `Date(file).from_exif(...)` call, which the source makes
only in the image/video branch. -/
def get_file_name_and_path (cfg : Config) (fs : FS) (file : String)
    (exif : Option ExifData) (date : Option DateInfo) :
    PlanResult × FS × List Event :=
  match exifType exif with
  | some t =>
    let r := get_output_dir cfg fs date
    let n0 := get_file_name cfg file date
    let n1 := if cfg.original_filenames = false then pyLower n0 else n0
    (⟨r.1, n1, joinPath [r.1, n1], some t⟩, r.2.1, r.2.2)
  | none =>
    let r := get_output_dir cfg fs none
    (⟨r.1, basename file, joinPath [r.1, basename file], none⟩, r.2.1, r.2.2)

/-- The suffix string `'-%s' % suffix if suffix > 1 else ''` of
`process_xmp`. -/
def suffixStr (suffix : Nat) : String :=
  if suffix > 1 then "-" ++ toString suffix else ""

/-- The `xmp_files` dictionary of `process_xmp`: the full-name sidecar and
the stem sidecar, each included when it exists on disk.  When the two
original paths coincide (a primary without an extension) the second
dictionary assignment overwrites the first. -/
def xmpPairs (fs : FS) (file file_name : String) (suffix : Nat) :
    List (String × String) :=
  let withExt := file ++ ".xmp"
  let withoutExt := (splitext file).1 ++ ".xmp"
  let tWith := file_name ++ suffixStr suffix ++ ".xmp"
  let tWithout := (splitext file_name).1 ++ suffixStr suffix ++ ".xmp"
  if withExt = withoutExt then
    if (fs.files withExt).isSome then [(withExt, tWithout)] else []
  else
    (if (fs.files withExt).isSome then [(withExt, tWith)] else []) ++
      (if (fs.files withoutExt).isSome then [(withoutExt, tWithout)] else [])

/-- One iteration of the transfer loop of `process_xmp`.  The third
component is `false` when the underlying call raises: `os.link` on an
occupied destination (`FileExistsError`) or any mode on a vanished
original (`FileNotFoundError`); neither is caught by the source. -/
def xmpTransferOne (cfg : Config) (fs : FS) (orig target output : String) :
    FS × List Event × Bool :=
  let xmp_path := joinPath [output, target]
  let ev0 := [Event.report (orig ++ " => " ++ xmp_path)]
  if cfg.dry_run then (fs, ev0, true)
  else if cfg.move then
    match fs.files orig with
    | some c => ((fs.delFile orig).setFile xmp_path c, ev0 ++ [.fmove orig xmp_path], true)
    | none => (fs, ev0, false)
  else if cfg.link then
    match fs.files orig with
    | some c =>
      if (fs.files xmp_path).isSome then (fs, ev0, false)
      else (fs.setFile xmp_path c, ev0 ++ [.flink orig xmp_path], true)
    | none => (fs, ev0, false)
  else
    match fs.files orig with
    | some c => (fs.setFile xmp_path c, ev0 ++ [.fcopy orig xmp_path], true)
    | none => (fs, ev0, false)

/-- The `for original, target in xmp_files.items()` loop of `process_xmp`;
stops at the first raising transfer. -/
def xmpTransferList (cfg : Config) (fs : FS) (output : String) :
    List (String × String) → FS × List Event × Bool
  | [] => (fs, [], true)
  | (o, t) :: rest =>
    let r := xmpTransferOne cfg fs o t output
    if r.2.2 then
      let r2 := xmpTransferList cfg r.1 output rest
      (r2.1, r.2.1 ++ r2.2.1, r2.2.2)
    else (r.1, r.2.1, false)

/-- `Phockup.process_xmp`. -/
def process_xmp (cfg : Config) (fs : FS) (file file_name : String)
    (suffix : Nat) (output : String) : FS × List Event × Bool :=
  let withExt := file ++ ".xmp"
  let withoutExt := (splitext file).1 ++ ".xmp"
  let probes := [Event.isFileProbe withExt, Event.isFileProbe withoutExt]
  let r := xmpTransferList cfg fs output (xmpPairs fs file file_name suffix)
  (r.1, probes ++ r.2.1, r.2.2)

/-- Outcomes of processing one file.  `uncaught` stands for an exception
that propagates out of `process_file` and aborts the whole run. -/
inductive Outcome where
  | skippedXmpFile
  | ignoredFile
  | skippedWrongType
  | skippedDuplicate (target : String)
  | skippedMissing
  | transferred (target : String) (suffix : Nat)
  | uncaught
deriving DecidableEq

/-- `'%s' %` rendering of a file-type value for the skip message. -/
def ftStr : Option FileType → String
  | none => "None"
  | some .image => "image"
  | some .video => "video"

/-- The `while True` loop of `Phockup.process_file` (lines 158-191),
with the iteration bounded by explicit fuel; `none` means the fuel ran out
before the Python loop would have stopped. -/
def process_file_loop (cfg : Config) (plan : PlanResult) (file : String)
    (fs : FS) (suffix : Nat) (target : String) :
    Nat → Option (Outcome × FS × List Event)
  | 0 => none
  | fuel + 1 =>
    if cfg.file_type ≠ plan.ftype ∧ cfg.file_type ≠ none then
      some (.skippedWrongType, fs,
        [.report (" => skipped, file is " ++ ftStr plan.ftype ++
          " but should be " ++ ftStr cfg.file_type)])
    else
      match fs.files target with
      | some tc =>
        match fs.files file with
        | none => some (.uncaught, fs, [.isFileProbe target])
        | some sc =>
          if checksum sc = checksum tc then
            some (.skippedDuplicate target, fs,
              [.isFileProbe target, .report (" => skipped, duplicated file " ++ target)])
          else
            let ts := splitext plan.path
            let nextT := ts.1 ++ "-" ++ toString (suffix + 1) ++ ts.2
            (process_file_loop cfg plan file fs (suffix + 1) nextT fuel).map
              (fun r => (r.1, r.2.1, .isFileProbe target :: r.2.2))
      | none =>
        let tr : FS × List Event × Option Outcome :=
          if cfg.dry_run then (fs, [], none)
          else if cfg.move then
            match fs.files file with
            | none => (fs, [.report " => skipped, no such file or directory"],
                some .skippedMissing)
            | some c => ((fs.delFile file).setFile target c, [.fmove file target], none)
          else if cfg.link then
            match fs.files file with
            | none => (fs, [], some .uncaught)
            | some c => (fs.setFile target c, [.flink file target], none)
          else
            match fs.files file with
            | none => (fs, [.report " => skipped, no such file or directory"],
                some .skippedMissing)
            | some c => (fs.setFile target c, [.fcopy file target], none)
        match tr.2.2 with
        | some o => some (o, tr.1, .isFileProbe target :: tr.2.1)
        | none =>
          let x := process_xmp cfg tr.1 file plan.name suffix plan.output
          some (if x.2.2 then .transferred target suffix else .uncaught, x.1,
            .isFileProbe target :: tr.2.1 ++ [.report (" => " ++ target)] ++ x.2.1)

/-- `Phockup.process_file`.  `exif` and `date` stand for the results of the
external `Exif(file).data()` and `Date(file).from_exif(...)` calls. -/
def process_file (cfg : Config) (fs : FS) (file : String)
    (exif : Option ExifData) (date : Option DateInfo) (fuel : Nat) :
    Option (Outcome × FS × List Event) :=
  if pyEndsWith file ".xmp" then some (.skippedXmpFile, fs, [])
  else
    let pr := get_file_name_and_path cfg fs file exif date
    (process_file_loop cfg pr.1 file pr.2.1 1 pr.1.path fuel).map
      (fun r => (r.1, r.2.1, (Event.report file :: pr.2.2) ++ r.2.2))

/-- `Phockup.check_directories`: report a missing input, create a missing
output root unless in dry-run mode. -/
def check_directories (cfg : Config) (fs : FS) (input : String) : FS × List Event :=
  if fs.dirs input = false then
    (fs, [.report ("Input directory " ++ input ++ " does not exist or cannot be accessed")])
  else if fs.dirs cfg.output = false ∧ (fs.files cfg.output).isNone then
    if cfg.dry_run then
      (fs, [.report ("Output directory " ++ cfg.output ++ " does not exist, creating now")])
    else
      (fs.addDir cfg.output,
        [.report ("Output directory " ++ cfg.output ++ " does not exist, creating now"),
          .mkdirs cfg.output])
  else (fs, [])

def ignored_files : List String := [".DS_Store", "Thumbs.db"]

/-- `Phockup.walk_directory`: process the (externally sorted) file list in
order, skipping the housekeeping names; an uncaught exception from one file
aborts the rest of the run. -/
def walk_directory (cfg : Config) (meta : String → Option ExifData)
    (dates : String → Option DateInfo) (fuel : Nat) (fs : FS) :
    List String → Option (FS × List Outcome × List Event)
  | [] => some (fs, [], [])
  | f :: rest =>
    if ignored_files.contains (basename f) then
      (walk_directory cfg meta dates fuel fs rest).map
        (fun r => (r.1, Outcome.ignoredFile :: r.2.1, r.2.2))
    else
      match process_file cfg fs f (meta f) (dates f) fuel with
      | none => none
      | some (out, fs1, ev) =>
        if out = .uncaught then some (fs1, [.uncaught], ev)
        else
          (walk_directory cfg meta dates fuel fs1 rest).map
            (fun r => (r.1, out :: r.2.1, ev ++ r.2.2))

/-- The candidate destination for collision counter `n`: the canonical path
itself for the first probe, and the canonical path with `-n` inserted
before its extension afterwards. -/
def nthCandidate (path : String) (n : Nat) : String :=
  if n ≤ 1 then path
  else (splitext path).1 ++ "-" ++ toString n ++ (splitext path).2

/-- Outcome component of a `process_file` result. -/
def rOut (r : Option (Outcome × FS × List Event)) : Option Outcome :=
  r.map (fun x => x.1)

/-- Filesystem component of a `process_file` result. -/
def rFS (fallback : FS) (r : Option (Outcome × FS × List Event)) : FS :=
  match r with
  | some x => x.2.1
  | none => fallback

/-- Event-trace component of a `process_file` result. -/
def rEv (r : Option (Outcome × FS × List Event)) : List Event :=
  match r with
  | some x => x.2.2
  | none => []

/-- Filesystem component of a `walk_directory` result. -/
def wFS (fallback : FS) (r : Option (FS × List Outcome × List Event)) : FS :=
  match r with
  | some x => x.1
  | none => fallback

/-- Outcome-list component of a `walk_directory` result. -/
def wOuts (r : Option (FS × List Outcome × List Event)) : List Outcome :=
  match r with
  | some x => x.2.1
  | none => []

/-- Event-trace component of a `walk_directory` result. -/
def wEv (r : Option (FS × List Outcome × List Event)) : List Event :=
  match r with
  | some x => x.2.2
  | none => []

def cfgCopy : Config :=
  ⟨"o", defaultDirFormat, false, false, false, false, none⟩

def date0 : DateInfo := ⟨⟨2021, 6, 15, 10, 20, 30⟩, ""⟩

def fsC1 : FS :=
  fsOf [("/in/DSC001.CR2", 1), ("/in/DSC001.CR2.xmp", 9),
        ("o/2021/06/15/20210615-102030.cr2", 2)]
    ["o", "o/2021/06/15"]

example : splitext "/in/DSC001.CR2" = ("/in/DSC001", ".CR2") := by decide
example : splitext ".bashrc" = (".bashrc", "") := by decide
example : splitext "a..b" = ("a.", ".b") := by decide
example : basename "/in/a.jpg" = "a.jpg" := by decide
example : get_file_type "image/jpeg" = some .image := by decide
example : get_file_type "application/vnd.adobe.photoshop" = some .image := by decide
example : get_file_type "application/vndXadobeXphotoshop" = some .image := by decide
example : get_file_type "video/" = some .video := by decide
example : get_file_type "image/" = none := by decide
example : get_file_type "text/plain" = none := by decide

example :
    rOut (process_file cfgCopy fsC1 "/in/DSC001.CR2"
      (some ⟨some "image/x-canon-cr2"⟩) (some date0) 5) =
    some (.transferred "o/2021/06/15/20210615-102030-2.cr2" 2) := by decide

example :
    (rFS fsC1 (process_file cfgCopy fsC1 "/in/DSC001.CR2"
      (some ⟨some "image/x-canon-cr2"⟩) (some date0) 5)).files
      "o/2021/06/15/20210615-102030.cr2-2.xmp" = some 9 := by decide

/-- A string with no newline cannot end with one. -/
theorem pyEndsWith_newline_false {m : String} (h : m.data.all dotAny = true) :
    pyEndsWith m "\n" = false := by
  cases hv : pyEndsWith m "\n"
  · rfl
  · exfalso
    unfold pyEndsWith at hv
    rw [Bool.and_eq_true] at hv
    have hd2 : m.data.drop (m.data.length - 1) = ['\n'] := eq_of_beq hv.2
    have hmem : '\n' ∈ m.data := by
      have hsub := List.drop_subset (m.data.length - 1) m.data
      exact hsub (by rw [hd2]; exact List.mem_singleton_self _)
    have := List.all_eq_true.mp h '\n' hmem
    simp [dotAny] at this

/-- On newline-free subjects the trailing-newline tolerance of `$` is
inert. -/
theorem regexAnchoredMatch_of_noNewline (b : String → Bool) {m : String}
    (h : m.data.all dotAny = true) : regexAnchoredMatch b m = b m := by
  unfold regexAnchoredMatch
  rw [pyEndsWith_newline_false h]
  simp

/-- A subject starting with `video/` never begins with `image/` and never
matches the photoshop alternative. -/
theorem video_not_image {m : String} (hv : pyStartsWith m "video/" = true) :
    (imageCore m || photoshopCore m) = false := by
  have ht : m.data.take 6 = "video/".data := by
    have := (beq_iff_eq).mp hv
    simpa [pyStartsWith] using this
  have hvd : "video/".data = ['v', 'i', 'd', 'e', 'o', '/'] := rfl
  have himg : pyStartsWith m "image/" = false := by
    unfold pyStartsWith
    have h6 : ("image/".data : List Char).length = 6 := rfl
    rw [h6, ht]
    decide
  have hcons : ∃ rest, m.data = 'v' :: rest := by
    cases hm : m.data with
    | nil => rw [hm] at ht; simp [hvd] at ht
    | cons a rest =>
      rw [hm, hvd] at ht
      have h6 : List.take 6 (a :: rest) = a :: List.take 5 rest := by simp
      rw [h6] at ht
      injection ht with h1 _
      exact ⟨rest, by rw [h1]⟩
  obtain ⟨rest, hm⟩ := hcons
  have hps : photoshopCore m = false := by
    unfold photoshopCore
    rw [hm]
    by_cases hl : ('v' :: rest).length = photoshopChars.length
    · have hz : List.zipWith patCharMatch photoshopChars ('v' :: rest) =
          patCharMatch 'a' 'v' :: List.zipWith patCharMatch photoshopChars.tail rest := rfl
      rw [hz]
      have hf : patCharMatch 'a' 'v' = false := rfl
      simp [hf]
    · have hb : (('v' :: rest).length == photoshopChars.length) = false := by
        simpa using hl
      rw [hb]
      simp
  rw [hps]
  unfold imageCore
  rw [himg]
  simp

/-- If every character of a list satisfies a predicate, so does every
character of any suffix. -/
theorem all_drop_of_all {l : List Char} (n : Nat) (h : l.all dotAny = true) :
    (l.drop n).all dotAny = true := by
  rw [List.all_eq_true] at h ⊢
  exact fun c hc => h c (List.drop_subset n l hc)

/-- On newline-free subjects the `image/.+` branch is exactly a nonempty
`image/` prefix-match. -/
theorem imageCore_eq {m : String} (h : m.data.all dotAny = true) :
    imageCore m = (pyStartsWith m "image/" && decide (6 < m.data.length)) := by
  unfold imageCore
  rw [all_drop_of_all 6 h, Bool.and_true]

/-- On newline-free subjects the `video/.*` branch is exactly a `video/`
prefix-match. -/
theorem videoCore_eq {m : String} (h : m.data.all dotAny = true) :
    videoCore m = pyStartsWith m "video/" := by
  unfold videoCore
  rw [all_drop_of_all 6 h, Bool.and_true]

/-- The character sequence the photoshop alternative really accepts: the
literal pattern with arbitrary characters in its two dot positions. -/
def vendorPhotoshopShape (c1 c2 : Char) : List Char :=
  "application/vnd".data ++ c1 :: "adobe".data ++ c2 :: "photoshop".data

/-- Full characterization of `get_file_type` on newline-free subjects. -/
theorem classify_characterization (m : String) (hm : m.data.all dotAny = true) :
    (get_file_type m = some .image ↔
      ((pyStartsWith m "image/" = true ∧ 6 < m.data.length) ∨ photoshopCore m = true)) ∧
    (get_file_type m = some .video ↔ pyStartsWith m "video/" = true) ∧
    (get_file_type m = none ↔
      (¬((pyStartsWith m "image/" = true ∧ 6 < m.data.length) ∨ photoshopCore m = true) ∧
        pyStartsWith m "video/" = false)) := by
  have hA : (imageCore m || photoshopCore m) = true ↔
      ((pyStartsWith m "image/" = true ∧ 6 < m.data.length) ∨ photoshopCore m = true) := by
    rw [Bool.or_eq_true, imageCore_eq hm, Bool.and_eq_true]
    constructor
    · rintro (⟨h1, h2⟩ | h)
      · exact Or.inl ⟨h1, of_decide_eq_true h2⟩
      · exact Or.inr h
    · rintro (⟨h1, h2⟩ | h)
      · exact Or.inl ⟨h1, decide_eq_true h2⟩
      · exact Or.inr h
  unfold get_file_type
  rw [regexAnchoredMatch_of_noNewline _ hm, regexAnchoredMatch_of_noNewline _ hm,
    videoCore_eq hm]
  by_cases h1 : (imageCore m || photoshopCore m) = true
  · rw [if_pos h1]
    have hnv : pyStartsWith m "video/" = false := by
      cases hv : pyStartsWith m "video/"
      · rfl
      · rw [video_not_image hv] at h1; exact absurd h1 (by decide)
    refine ⟨⟨fun _ => hA.mp h1, fun _ => rfl⟩, ?_, ?_⟩
    · exact ⟨fun h => by simp at h, fun hR => by rw [hnv] at hR; exact absurd hR (by decide)⟩
    · exact ⟨fun h => by simp at h, fun hR => absurd (hA.mp h1) hR.1⟩
  · rw [if_neg h1]
    by_cases h2 : pyStartsWith m "video/" = true
    · rw [if_pos h2]
      refine ⟨?_, ⟨fun _ => h2, fun _ => rfl⟩, ?_⟩
      · exact ⟨fun h => by simp at h, fun hR => absurd hR ((not_congr hA).mp h1)⟩
      · exact ⟨fun h => by simp at h, fun hR => by rw [h2] at hR; exact absurd hR.2 (by decide)⟩
    · have h2f : pyStartsWith m "video/" = false := by
        cases hv : pyStartsWith m "video/"
        · rfl
        · exact absurd hv h2
      rw [if_neg h2]
      refine ⟨?_, ?_, ?_⟩
      · exact ⟨fun h => by simp at h, fun hR => absurd hR ((not_congr hA).mp h1)⟩
      · exact ⟨fun h => by simp at h, fun hR => by rw [h2f] at hR; exact absurd hR (by decide)⟩
      · exact ⟨fun _ => ⟨(not_congr hA).mp h1, h2f⟩, fun _ => rfl⟩

/-- The photoshop alternative accepts any characters at its two dot
positions. -/
theorem photoshop_wildcard (c1 c2 : Char) (h1 : dotAny c1 = true) (h2 : dotAny c2 = true) :
    get_file_type (String.mk (vendorPhotoshopShape c1 c2)) = some .image := by
  have hps : photoshopCore (String.mk (vendorPhotoshopShape c1 c2)) = true := by
    unfold photoshopCore photoshopChars
    show ((vendorPhotoshopShape c1 c2).length ==
        ("application/vnd.adobe.photoshop".data).length &&
      (List.zipWith patCharMatch "application/vnd.adobe.photoshop".data
        (vendorPhotoshopShape c1 c2)).all (fun b => b)) = true
    simp [vendorPhotoshopShape, patCharMatch, h1, h2]
  unfold get_file_type
  have hb : regexAnchoredMatch
      (fun s => imageCore s || photoshopCore s) (String.mk (vendorPhotoshopShape c1 c2)) = true := by
    unfold regexAnchoredMatch
    rw [Bool.or_eq_true]
    refine Or.inl ?_
    show (imageCore (String.mk (vendorPhotoshopShape c1 c2)) ||
      photoshopCore (String.mk (vendorPhotoshopShape c1 c2))) = true
    rw [hps, Bool.or_true]
  rw [if_pos hb]

/-- C7 counterexample: a string that is not the vendor photoshop MIME type
and does not begin with `image/` is nevertheless classified as an image,
because the unescaped dots of the pattern match the substituted letters. -/
theorem C7_counterexample :
    get_file_type "application/vndXadobeXphotoshop" = some FileType.image ∧
    pyStartsWith "application/vndXadobeXphotoshop" "image/" = false ∧
    "application/vndXadobeXphotoshop" ≠ "application/vnd.adobe.photoshop" :=
  ⟨by decide, by decide, by decide⟩

/-- C7 (amended): on newline-free MIME strings, classification returns
image exactly when the string is `image/` followed by at least one
character or matches the photoshop alternative, whose two unescaped dots
are single-character wildcards; video exactly when the string starts with
`video/`; unknown otherwise.  Matching is case-sensitive, an empty
`image/` subtype does not count, and an absent MIME type classifies as
unknown. -/
theorem C7_classify :
    (∀ m : String, m.data.all dotAny = true →
      (get_file_type m = some .image ↔
        ((pyStartsWith m "image/" = true ∧ 6 < m.data.length) ∨ photoshopCore m = true)) ∧
      (get_file_type m = some .video ↔ pyStartsWith m "video/" = true) ∧
      (get_file_type m = none ↔
        (¬((pyStartsWith m "image/" = true ∧ 6 < m.data.length) ∨ photoshopCore m = true) ∧
          pyStartsWith m "video/" = false))) ∧
    (∀ c1 c2 : Char, dotAny c1 = true → dotAny c2 = true →
      get_file_type (String.mk (vendorPhotoshopShape c1 c2)) = some .image) ∧
    exifType none = none ∧
    exifType (some ⟨none⟩) = none ∧
    get_file_type "image/" = none ∧
    get_file_type "Image/jpeg" = none :=
  ⟨classify_characterization, photoshop_wildcard, rfl, rfl, by decide, by decide⟩

/-- C7 witness: the characterization and the wildcard fact, instantiated at
concrete inputs with all hypotheses discharged by evaluation. -/
theorem C7_classify_witness :
    ("image/jpeg".data.all dotAny = true) ∧
    (get_file_type "image/jpeg" = some FileType.image ↔
      ((pyStartsWith "image/jpeg" "image/" = true ∧ 6 < "image/jpeg".data.length) ∨
        photoshopCore "image/jpeg" = true)) ∧
    (dotAny 'Q' = true) ∧
    get_file_type (String.mk (vendorPhotoshopShape 'Q' 'Q')) = some FileType.image :=
  ⟨by decide, (C7_classify.1 "image/jpeg" (by decide)).1, by decide,
    C7_classify.2.1 'Q' 'Q' (by decide) (by decide)⟩


/-- The directory string `get_output_dir` returns depends only on the
configuration and the date, not on the filesystem. -/
theorem get_output_dir_fst (cfg : Config) (fs : FS) (date : Option DateInfo) :
    (get_output_dir cfg fs date).1 =
      (match date with
       | some d => joinPath [cfg.output, cfg.dirFormat d.date]
       | none => joinPath [cfg.output, "unknown"]) := by
  unfold get_output_dir
  cases date <;> (dsimp only; split <;> rfl)

/-- C9: a file with no MIME type, or one whose MIME type classifies as
neither image nor video, goes to the `unknown` directory under its
original basename, whatever the resolved date would have been. -/
theorem C9_unknown_bucket (cfg : Config) (fs : FS) (file : String)
    (exif : Option ExifData) (date : Option DateInfo) (h : exifType exif = none) :
    ((get_file_name_and_path cfg fs file exif date).1.output =
      joinPath [cfg.output, "unknown"]) ∧
    ((get_file_name_and_path cfg fs file exif date).1.name = basename file) ∧
    ((get_file_name_and_path cfg fs file exif date).1.path =
      joinPath [joinPath [cfg.output, "unknown"], basename file]) := by
  unfold get_file_name_and_path
  rw [h]
  dsimp only
  rw [get_output_dir_fst]
  exact ⟨rfl, rfl, rfl⟩

/-- C9 witness: a text file with a resolvable date still lands in the
unknown bucket under its own basename. -/
theorem C9_unknown_bucket_witness :
    (exifType (some ⟨some "text/plain"⟩) = none) ∧
    ((get_file_name_and_path cfgCopy fsC1 "/in/readme.txt"
        (some ⟨some "text/plain"⟩) (some date0)).1.output = joinPath ["o", "unknown"]) ∧
    ((get_file_name_and_path cfgCopy fsC1 "/in/readme.txt"
        (some ⟨some "text/plain"⟩) (some date0)).1.name = basename "/in/readme.txt") ∧
    ((get_file_name_and_path cfgCopy fsC1 "/in/readme.txt"
        (some ⟨some "text/plain"⟩) (some date0)).1.path =
      joinPath [joinPath ["o", "unknown"], basename "/in/readme.txt"]) :=
  ⟨by decide, C9_unknown_bucket cfgCopy fsC1 "/in/readme.txt"
    (some ⟨some "text/plain"⟩) (some date0) (by decide)⟩

/-- C10: for a classified file with no usable date fields and the
preserve-original-filenames flag unset, the planned file name is the
lower-cased original basename (the lowercasing applies to the fallback
name too). -/
theorem C10_lowercase_fallback (cfg : Config) (fs : FS) (file m : String)
    (t : FileType) (horig : cfg.original_filenames = false)
    (ht : get_file_type m = some t) :
    (get_file_name_and_path cfg fs file (some ⟨some m⟩) none).1.name =
      pyLower (basename file) := by
  unfold get_file_name_and_path
  have he : exifType (some ⟨some m⟩) = get_file_type m := rfl
  rw [he, ht]
  dsimp only
  simp [get_file_name, horig]

/-- C10 witness: an upper-case basename is lower-cased by the fallback, so
the planned name differs from the unmodified original basename. -/
theorem C10_lowercase_fallback_witness :
    (cfgCopy.original_filenames = false) ∧
    (get_file_type "image/jpeg" = some FileType.image) ∧
    ((get_file_name_and_path cfgCopy fsC1 "/in/IMG_0001.JPG"
        (some ⟨some "image/jpeg"⟩) none).1.name = pyLower (basename "/in/IMG_0001.JPG")) ∧
    pyLower (basename "/in/IMG_0001.JPG") ≠ basename "/in/IMG_0001.JPG" :=
  ⟨by decide, by decide,
    C10_lowercase_fallback cfgCopy fsC1 "/in/IMG_0001.JPG" "image/jpeg"
      FileType.image (by decide) (by decide), by decide⟩

/-- C1 counterexample: the RAW scenario of the claim.  The primary lands at
the suffixed `20210615-102030-2.cr2`, but its full-name sidecar is written
to `20210615-102030.cr2-2.xmp` (suffix appended after the extension), not
to the claimed `20210615-102030-2.cr2.xmp`. -/
theorem C1_counterexample :
    rOut (process_file cfgCopy fsC1 "/in/DSC001.CR2"
        (some ⟨some "image/x-canon-cr2"⟩) (some date0) 5) =
      some (.transferred "o/2021/06/15/20210615-102030-2.cr2" 2) ∧
    (rFS fsC1 (process_file cfgCopy fsC1 "/in/DSC001.CR2"
        (some ⟨some "image/x-canon-cr2"⟩) (some date0) 5)).files
      "o/2021/06/15/20210615-102030.cr2-2.xmp" = some 9 ∧
    (rFS fsC1 (process_file cfgCopy fsC1 "/in/DSC001.CR2"
        (some ⟨some "image/x-canon-cr2"⟩) (some date0) 5)).files
      "o/2021/06/15/20210615-102030-2.cr2.xmp" = none :=
  ⟨by decide, by decide, by decide⟩

/-- C1 (amended): for a primary whose collision counter is `N > 1`, the
`name.ext.xmp` sidecar is placed in the primary's output directory under
the primary's unsuffixed target name with `-N` appended after the
extension and `.xmp` appended, i.e. `<target_name>-N.xmp`, not with the
suffix inserted before the extension. -/
theorem C1_sidecar_suffix_after_ext (cfg : Config) (fs : FS)
    (file fname output : String) (c : Content) (N : Nat)
    (hmove : cfg.move = false) (hlink : cfg.link = false) (hdry : cfg.dry_run = false)
    (hN : 1 < N)
    (hside : fs.files (file ++ ".xmp") = some c)
    (hnostem : fs.files ((splitext file).1 ++ ".xmp") = none) :
    (process_xmp cfg fs file fname N output).1.files
        (joinPath [output, fname ++ ("-" ++ toString N) ++ ".xmp"]) = some c ∧
    (process_xmp cfg fs file fname N output).2.2 = true := by
  have hne : ¬ (file ++ ".xmp" = (splitext file).1 ++ ".xmp") := by
    intro he
    rw [he, hnostem] at hside
    exact Option.noConfusion hside
  have hsfx : suffixStr N = "-" ++ toString N := by
    unfold suffixStr
    rw [if_pos hN]
  have hpairs : xmpPairs fs file fname N =
      [(file ++ ".xmp", fname ++ ("-" ++ toString N) ++ ".xmp")] := by
    unfold xmpPairs
    dsimp only
    rw [if_neg hne, hside, hnostem, hsfx]
    simp
  unfold process_xmp
  rw [hpairs]
  unfold xmpTransferList xmpTransferOne
  rw [hdry, hmove, hlink, hside]
  dsimp only
  unfold xmpTransferList
  dsimp only
  constructor
  · show (fs.setFile (joinPath [output, fname ++ ("-" ++ toString N) ++ ".xmp"]) c).files
      (joinPath [output, fname ++ ("-" ++ toString N) ++ ".xmp"]) = some c
    unfold FS.setFile
    simp
  · rfl

/-- C1 witness: the amended sidecar placement at a concrete input. -/
theorem C1_sidecar_suffix_after_ext_witness :
    (cfgCopy.move = false) ∧ (cfgCopy.link = false) ∧ (cfgCopy.dry_run = false) ∧
    (1 < 2) ∧
    (fsC1.files ("/in/DSC001.CR2" ++ ".xmp") = some 9) ∧
    (fsC1.files ((splitext "/in/DSC001.CR2").1 ++ ".xmp") = none) ∧
    ((process_xmp cfgCopy fsC1 "/in/DSC001.CR2" "20210615-102030.cr2" 2 "o/2021/06/15").1.files
        (joinPath ["o/2021/06/15", "20210615-102030.cr2" ++ ("-" ++ toString 2) ++ ".xmp"]) =
      some 9) ∧
    ((process_xmp cfgCopy fsC1 "/in/DSC001.CR2" "20210615-102030.cr2" 2 "o/2021/06/15").2.2 =
      true) := by
  refine ⟨by decide, by decide, by decide, by decide, by decide, by decide, ?_⟩
  exact C1_sidecar_suffix_after_ext cfgCopy fsC1 "/in/DSC001.CR2" "20210615-102030.cr2"
    "o/2021/06/15" 9 2 (by decide) (by decide) (by decide) (by decide) (by decide) (by decide)

/-- Path planning never touches the file map. -/
theorem get_output_dir_files (cfg : Config) (fs : FS) (date : Option DateInfo) :
    ((get_output_dir cfg fs date).2.1).files = fs.files := by
  unfold get_output_dir
  cases date <;> (dsimp only; split <;> rfl)

/-- Path planning only ever adds directories. -/
theorem get_output_dir_dirs_mono (cfg : Config) (fs : FS) (date : Option DateInfo)
    (p : String) (h : fs.dirs p = true) : ((get_output_dir cfg fs date).2.1).dirs p = true := by
  unfold get_output_dir
  cases date <;> (dsimp only; split)
  case _ =>
    show (fs.addDir _).dirs p = true
    unfold FS.addDir
    dsimp only
    split <;> simp [h]
  case _ => exact h
  case _ =>
    show (fs.addDir _).dirs p = true
    unfold FS.addDir
    dsimp only
    split <;> simp [h]
  case _ => exact h

/-- Outside dry-run mode, path planning guarantees the returned directory
exists afterwards. -/
theorem get_output_dir_ensures (cfg : Config) (fs : FS) (date : Option DateInfo)
    (hdry : cfg.dry_run = false) :
    ((get_output_dir cfg fs date).2.1).dirs ((get_output_dir cfg fs date).1) = true := by
  unfold get_output_dir
  cases date <;> dsimp only
  all_goals
    split
    case _ =>
      show (fs.addDir _).dirs _ = true
      unfold FS.addDir
      simp
    case _ h =>
      rw [Classical.not_and_iff_or_not_not] at h
      rcases h with h | h
      · show fs.dirs _ = true
        cases hv : fs.dirs _
        · exact absurd hv h
        · rfl
      · exact absurd hdry h

/-- The planned destination is a function of configuration, file and
metadata alone, independent of the filesystem. -/
theorem plan_fst_fs_indep (cfg : Config) (fs fs2 : FS) (file : String)
    (exif : Option ExifData) (date : Option DateInfo) :
    (get_file_name_and_path cfg fs file exif date).1 =
      (get_file_name_and_path cfg fs2 file exif date).1 := by
  unfold get_file_name_and_path
  cases exifType exif <;> dsimp only <;> rw [get_output_dir_fst, get_output_dir_fst]

/-- The planned file type is exactly the classification of the exif MIME
type. -/
theorem plan_ftype (cfg : Config) (fs : FS) (file : String)
    (exif : Option ExifData) (date : Option DateInfo) :
    (get_file_name_and_path cfg fs file exif date).1.ftype = exifType exif := by
  unfold get_file_name_and_path
  cases exifType exif <;> rfl

/-- Planning never touches the file map. -/
theorem plan_files (cfg : Config) (fs : FS) (file : String)
    (exif : Option ExifData) (date : Option DateInfo) :
    ((get_file_name_and_path cfg fs file exif date).2.1).files = fs.files := by
  unfold get_file_name_and_path
  cases exifType exif <;> dsimp only <;> exact get_output_dir_files cfg fs _

/-- Unfolding of one `walk_directory` step whose file does not abort the
run: the pipeline proceeds with the remaining files. -/
theorem walk_cons_continue (cfg : Config) (meta : String → Option ExifData)
    (dates : String → Option DateInfo) (fuel : Nat) (fs : FS) (f : String)
    (rest : List String) (out : Outcome) (fs1 : FS) (ev : List Event)
    (hig : ignored_files.contains (basename f) = false)
    (hp : process_file cfg fs f (meta f) (dates f) fuel = some (out, fs1, ev))
    (ho : out ≠ .uncaught) :
    walk_directory cfg meta dates fuel fs (f :: rest) =
      (walk_directory cfg meta dates fuel fs1 rest).map
        (fun r => (r.1, out :: r.2.1, ev ++ r.2.2)) := by
  conv_lhs => unfold walk_directory
  rw [hig, hp]
  dsimp only
  rw [if_neg ho]
  simp only [Bool.false_eq_true, if_false]

def cfgLink : Config :=
  ⟨"o", defaultDirFormat, false, true, false, false, none⟩

def fsC2 : FS := fsOf [] ["o", "o/2021/06/15"]

/-- C2 counterexample: with a vanished source and a free destination, copy
mode reports a skip but hard-link mode raises an uncaught exception that
aborts the run, so the claim fails for the hard-link transfer mode. -/
theorem C2_counterexample :
    rOut (process_file cfgLink fsC2 "/in/a.jpg"
        (some ⟨some "image/jpeg"⟩) (some date0) 5) = some Outcome.uncaught ∧
    rOut (process_file cfgCopy fsC2 "/in/a.jpg"
        (some ⟨some "image/jpeg"⟩) (some date0) 5) = some Outcome.skippedMissing :=
  ⟨by decide, by decide⟩

/-- C2 (amended): in copy and move modes, a source that vanished between
planning and execution is reported as a skip, the filesystem is untouched,
and the walk proceeds to the next file; in hard-link mode (not covered
here, see the counterexample) the `FileNotFoundError` of `os.link` is not
caught and aborts the run. -/
theorem C2_vanished_source_skip (cfg : Config) (fs : FS) (file : String)
    (exif : Option ExifData) (date : Option DateInfo) (fuel : Nat)
    (hlink : cfg.link = false) (hdry : cfg.dry_run = false)
    (hxmp : pyEndsWith file ".xmp" = false)
    (htype : cfg.file_type = none ∨ cfg.file_type = exifType exif)
    (hsrc : fs.files file = none)
    (hfree : fs.files ((get_file_name_and_path cfg fs file exif date).1.path) = none) :
    rOut (process_file cfg fs file exif date (fuel + 1)) = some .skippedMissing ∧
    (rFS fs (process_file cfg fs file exif date (fuel + 1))).files = fs.files ∧
    Event.report " => skipped, no such file or directory" ∈
      rEv (process_file cfg fs file exif date (fuel + 1)) ∧
    (∀ (meta : String → Option ExifData) (dates : String → Option DateInfo)
        (rest : List String),
      meta file = exif → dates file = date →
      ignored_files.contains (basename file) = false →
      walk_directory cfg meta dates (fuel + 1) fs (file :: rest) =
        (walk_directory cfg meta dates (fuel + 1)
            (rFS fs (process_file cfg fs file exif date (fuel + 1))) rest).map
          (fun r => (r.1, Outcome.skippedMissing :: r.2.1,
            rEv (process_file cfg fs file exif date (fuel + 1)) ++ r.2.2))) := by
  have hcond : ¬ (cfg.file_type ≠ (get_file_name_and_path cfg fs file exif date).1.ftype ∧
      cfg.file_type ≠ none) := by
    rcases htype with h | h
    · exact fun hc => hc.2 h
    · exact fun hc => hc.1 (by rw [h, plan_ftype])
  have hscrut : ((get_file_name_and_path cfg fs file exif date).2.1).files
      ((get_file_name_and_path cfg fs file exif date).1.path) = none := by
    rw [plan_files]; exact hfree
  have hsrc2 : ((get_file_name_and_path cfg fs file exif date).2.1).files file = none := by
    rw [plan_files]; exact hsrc
  have hloop : process_file_loop cfg (get_file_name_and_path cfg fs file exif date).1 file
      (get_file_name_and_path cfg fs file exif date).2.1 1
      ((get_file_name_and_path cfg fs file exif date).1.path) (fuel + 1) =
      some (.skippedMissing, (get_file_name_and_path cfg fs file exif date).2.1,
        [.isFileProbe ((get_file_name_and_path cfg fs file exif date).1.path),
         .report " => skipped, no such file or directory"]) := by
    unfold process_file_loop
    rw [if_neg hcond, hscrut]
    dsimp only
    rw [hdry]
    simp only [Bool.false_eq_true, if_false]
    cases hmove : cfg.move
    · rw [hlink]
      simp only [Bool.false_eq_true, if_false]
      rw [hsrc2]
    · simp only [if_true]
      rw [hsrc2]
  have hres : process_file cfg fs file exif date (fuel + 1) =
      some (.skippedMissing, (get_file_name_and_path cfg fs file exif date).2.1,
        Event.report file :: ((get_file_name_and_path cfg fs file exif date).2.2 ++
          [Event.isFileProbe ((get_file_name_and_path cfg fs file exif date).1.path),
           Event.report " => skipped, no such file or directory"])) := by
    unfold process_file
    rw [hxmp]
    dsimp only
    rw [hloop]
    rfl
  refine ⟨by rw [hres]; rfl, by rw [hres]; exact plan_files cfg fs file exif date,
    by rw [hres]; simp [rEv], ?_⟩
  intro meta dates rest hmeta hdates hig
  have hres2 : process_file cfg fs file (meta file) (dates file) (fuel + 1) =
      some (.skippedMissing, (get_file_name_and_path cfg fs file exif date).2.1,
        Event.report file :: ((get_file_name_and_path cfg fs file exif date).2.2 ++
          [Event.isFileProbe ((get_file_name_and_path cfg fs file exif date).1.path),
           Event.report " => skipped, no such file or directory"])) := by
    rw [hmeta, hdates]; exact hres
  rw [walk_cons_continue cfg meta dates (fuel + 1) fs file rest _ _ _ hig hres2
    (by intro h; exact Outcome.noConfusion h)]
  rw [hres]
  rfl

/-- C2 witness: copy mode, vanished source, free target; the skip outcome
at a concrete input. -/
theorem C2_vanished_source_skip_witness :
    (cfgCopy.link = false) ∧ (cfgCopy.dry_run = false) ∧
    (pyEndsWith "/in/a.jpg" ".xmp" = false) ∧
    (cfgCopy.file_type = none ∨
      cfgCopy.file_type = exifType (some ⟨some "image/jpeg"⟩)) ∧
    (fsC2.files "/in/a.jpg" = none) ∧
    (fsC2.files ((get_file_name_and_path cfgCopy fsC2 "/in/a.jpg"
        (some ⟨some "image/jpeg"⟩) (some date0)).1.path) = none) ∧
    rOut (process_file cfgCopy fsC2 "/in/a.jpg"
      (some ⟨some "image/jpeg"⟩) (some date0) (4 + 1)) = some .skippedMissing :=
  ⟨by decide, by decide, by decide, Or.inl (by decide), by decide, by decide,
    (C2_vanished_source_skip cfgCopy fsC2 "/in/a.jpg" (some ⟨some "image/jpeg"⟩)
      (some date0) 4 (by decide) (by decide) (by decide) (Or.inl (by decide))
      (by decide) (by decide)).1⟩

/-- Outside dry-run mode, planning leaves the planned output directory
present on disk. -/
theorem plan_ensures_dir (cfg : Config) (fs : FS) (file : String)
    (exif : Option ExifData) (date : Option DateInfo) (hdry : cfg.dry_run = false) :
    ((get_file_name_and_path cfg fs file exif date).2.1).dirs
      ((get_file_name_and_path cfg fs file exif date).1.output) = true := by
  unfold get_file_name_and_path
  cases exifType exif <;> dsimp only <;> exact get_output_dir_ensures cfg fs _ hdry

/-- Path planning emits no candidate-file probe and no transfer. -/
theorem get_output_dir_events (cfg : Config) (fs : FS) (date : Option DateInfo) :
    ∀ e ∈ (get_output_dir cfg fs date).2.2,
      eventProbesFile e = false ∧ eventTransfers e = false := by
  unfold get_output_dir
  cases date <;> (dsimp only; split) <;> intro e he <;> simp at he <;>
    rcases he with rfl | rfl <;> exact ⟨rfl, rfl⟩

/-- `get_file_name_and_path` emits no candidate-file probe and no
transfer. -/
theorem plan_events (cfg : Config) (fs : FS) (file : String)
    (exif : Option ExifData) (date : Option DateInfo) :
    ∀ e ∈ (get_file_name_and_path cfg fs file exif date).2.2,
      eventProbesFile e = false ∧ eventTransfers e = false := by
  unfold get_file_name_and_path
  cases exifType exif <;> dsimp only <;> exact get_output_dir_events cfg fs _

/-- C3 (amended): with a type filter configured and a mismatched file
type, the file is skipped immediately with the wrong-type outcome; no
existence check of the candidate destination path and no transfer happen,
and the file map is untouched -- but the destination directory has already
been created by path planning (see the counterexample), so the claim's
"no creation of the destination directory" clause fails. -/
theorem C3_wrong_type_skip (cfg : Config) (fs : FS) (file : String) (exif : Option ExifData)
    (date : Option DateInfo) (fuel : Nat) (t : FileType)
    (hxmp : pyEndsWith file ".xmp" = false)
    (hft : cfg.file_type = some t)
    (hmis : exifType exif ≠ some t) :
    rOut (process_file cfg fs file exif date (fuel + 1)) = some .skippedWrongType ∧
    (rFS fs (process_file cfg fs file exif date (fuel + 1))).files = fs.files ∧
    (∀ e ∈ rEv (process_file cfg fs file exif date (fuel + 1)),
      eventProbesFile e = false ∧ eventTransfers e = false) ∧
    (cfg.dry_run = false →
      (rFS fs (process_file cfg fs file exif date (fuel + 1))).dirs
        ((get_file_name_and_path cfg fs file exif date).1.output) = true) := by
  have hcondT : cfg.file_type ≠ (get_file_name_and_path cfg fs file exif date).1.ftype ∧
      cfg.file_type ≠ none := by
    constructor
    · rw [hft, plan_ftype]
      exact fun h => hmis h.symm
    · rw [hft]
      exact fun h => Option.noConfusion h
  have hloop : process_file_loop cfg (get_file_name_and_path cfg fs file exif date).1 file
      (get_file_name_and_path cfg fs file exif date).2.1 1
      ((get_file_name_and_path cfg fs file exif date).1.path) (fuel + 1) =
      some (.skippedWrongType, (get_file_name_and_path cfg fs file exif date).2.1,
        [.report (" => skipped, file is " ++
          ftStr (get_file_name_and_path cfg fs file exif date).1.ftype ++
          " but should be " ++ ftStr cfg.file_type)]) := by
    unfold process_file_loop
    rw [if_pos hcondT]
  have hres : process_file cfg fs file exif date (fuel + 1) =
      some (.skippedWrongType, (get_file_name_and_path cfg fs file exif date).2.1,
        Event.report file :: ((get_file_name_and_path cfg fs file exif date).2.2 ++
          [.report (" => skipped, file is " ++
            ftStr (get_file_name_and_path cfg fs file exif date).1.ftype ++
            " but should be " ++ ftStr cfg.file_type)])) := by
    unfold process_file
    rw [hxmp]
    dsimp only
    rw [hloop]
    rfl
  refine ⟨by rw [hres]; rfl, by rw [hres]; exact plan_files cfg fs file exif date, ?_, ?_⟩
  · rw [hres]
    intro e he
    simp [rEv] at he
    rcases he with rfl | he | rfl
    · exact ⟨rfl, rfl⟩
    · exact plan_events cfg fs file exif date e he
    · exact ⟨rfl, rfl⟩
  · intro hdry
    rw [hres]
    exact plan_ensures_dir cfg fs file exif date hdry

def cfgImgFilter : Config :=
  ⟨"o", defaultDirFormat, false, false, false, false, some .image⟩

def fsC3 : FS := fsOf [("/in/v.mp4", 3)] ["o"]

/-- C3 counterexample: a video file under an image-only filter is skipped
as wrong-type, yet its dated destination directory, absent beforehand, has
been created on disk by the planning step that precedes the type check. -/
theorem C3_counterexample :
    rOut (process_file cfgImgFilter fsC3 "/in/v.mp4"
        (some ⟨some "video/mp4"⟩) (some date0) 5) = some .skippedWrongType ∧
    fsC3.dirs "o/2021/06/15" = false ∧
    (rFS fsC3 (process_file cfgImgFilter fsC3 "/in/v.mp4"
        (some ⟨some "video/mp4"⟩) (some date0) 5)).dirs "o/2021/06/15" = true ∧
    Event.mkdirs "o/2021/06/15" ∈ rEv (process_file cfgImgFilter fsC3 "/in/v.mp4"
        (some ⟨some "video/mp4"⟩) (some date0) 5) :=
  ⟨by decide, by decide, by decide, by decide⟩

/-- C3 witness: the amended wrong-type behaviour at a concrete input. -/
theorem C3_wrong_type_skip_witness :
    (pyEndsWith "/in/v.mp4" ".xmp" = false) ∧
    (cfgImgFilter.file_type = some FileType.image) ∧
    (exifType (some ⟨some "video/mp4"⟩) ≠ some FileType.image) ∧
    rOut (process_file cfgImgFilter fsC3 "/in/v.mp4"
      (some ⟨some "video/mp4"⟩) (some date0) (4 + 1)) = some .skippedWrongType :=
  ⟨by decide, by decide, by decide,
    (C3_wrong_type_skip cfgImgFilter fsC3 "/in/v.mp4" (some ⟨some "video/mp4"⟩)
      (some date0) 4 FileType.image (by decide) (by decide) (by decide)).1⟩

/-- In dry-run mode `get_output_dir` neither changes the filesystem nor
emits a mutating call. -/
theorem get_output_dir_dry (cfg : Config) (fs : FS) (date : Option DateInfo)
    (h : cfg.dry_run = true) :
    (get_output_dir cfg fs date).2.1 = fs ∧
    ∀ e ∈ (get_output_dir cfg fs date).2.2, eventMutates e = false := by
  unfold get_output_dir
  cases date <;> dsimp only <;>
    rw [if_neg (fun hc => by rw [h] at hc; exact Bool.noConfusion hc.2)] <;>
    exact ⟨rfl, by intro e he; simp at he; subst he; rfl⟩

/-- In dry-run mode planning neither changes the filesystem nor emits a
mutating call. -/
theorem plan_dry (cfg : Config) (fs : FS) (file : String) (exif : Option ExifData)
    (date : Option DateInfo) (h : cfg.dry_run = true) :
    (get_file_name_and_path cfg fs file exif date).2.1 = fs ∧
    ∀ e ∈ (get_file_name_and_path cfg fs file exif date).2.2, eventMutates e = false := by
  unfold get_file_name_and_path
  cases exifType exif <;> dsimp only <;> exact get_output_dir_dry cfg fs _ h

/-- In dry-run mode the sidecar transfer loop only reports. -/
theorem xmpTransferList_dry (cfg : Config) (output : String) (h : cfg.dry_run = true) :
    ∀ (pairs : List (String × String)) (fs : FS),
      (xmpTransferList cfg fs output pairs).1 = fs ∧
      (∀ e ∈ (xmpTransferList cfg fs output pairs).2.1, eventMutates e = false) ∧
      (xmpTransferList cfg fs output pairs).2.2 = true := by
  intro pairs
  induction pairs with
  | nil => exact fun fs => ⟨rfl, by intro e he; simp [xmpTransferList] at he, rfl⟩
  | cons p rest ih =>
    intro fs
    have hone : xmpTransferOne cfg fs p.1 p.2 output =
        (fs, [Event.report (p.1 ++ " => " ++ joinPath [output, p.2])], true) := by
      unfold xmpTransferOne
      rw [h]
      rfl
    unfold xmpTransferList
    rw [hone]
    dsimp only
    refine ⟨(ih fs).1, ?_, (ih fs).2.2⟩
    intro e he
    simp at he
    rcases he with rfl | he
    · rfl
    · exact (ih fs).2.1 e he

/-- In dry-run mode `process_xmp` only probes and reports. -/
theorem process_xmp_dry (cfg : Config) (fs : FS) (file file_name : String)
    (suffix : Nat) (output : String) (h : cfg.dry_run = true) :
    (process_xmp cfg fs file file_name suffix output).1 = fs ∧
    ∀ e ∈ (process_xmp cfg fs file file_name suffix output).2.1, eventMutates e = false := by
  unfold process_xmp
  dsimp only
  refine ⟨(xmpTransferList_dry cfg output h _ fs).1, ?_⟩
  intro e he
  simp at he
  rcases he with rfl | rfl | he
  · rfl
  · rfl
  · exact (xmpTransferList_dry cfg output h _ fs).2.1 e he

/-- In dry-run mode the collision loop never mutates the filesystem, and
a planned transfer is still reported with its target path. -/
theorem process_file_loop_dry (cfg : Config) (plan : PlanResult) (file : String)
    (h : cfg.dry_run = true) :
    ∀ (fuel : Nat) (fs : FS) (suffix : Nat) (target : String)
      (r : Outcome × FS × List Event),
      process_file_loop cfg plan file fs suffix target fuel = some r →
      r.2.1 = fs ∧ (∀ e ∈ r.2.2, eventMutates e = false) ∧
      (∀ t n, r.1 = .transferred t n → Event.report (" => " ++ t) ∈ r.2.2) := by
  intro fuel
  induction fuel with
  | zero =>
    intro fs suffix target r hr
    exact absurd hr (by simp [process_file_loop])
  | succ fuel ih =>
    intro fs suffix target r hr
    unfold process_file_loop at hr
    rw [h] at hr
    simp only [if_true] at hr
    split at hr
    · -- wrong-type skip
      obtain rfl := (Option.some.inj hr).symm
      refine ⟨rfl, ?_, ?_⟩
      · intro e he
        simp at he
        subst he
        rfl
      · intro t n hn
        exact absurd hn (by simp)
    · split at hr
      · -- candidate occupied
        split at hr
        · -- source vanished: uncaught from checksum
          obtain rfl := (Option.some.inj hr).symm
          refine ⟨rfl, ?_, ?_⟩
          · intro e he
            simp at he
            subst he
            rfl
          · intro t n hn
            exact absurd hn (by simp)
        · split at hr
          · -- duplicate
            obtain rfl := (Option.some.inj hr).symm
            refine ⟨rfl, ?_, ?_⟩
            · intro e he
              simp at he
              rcases he with rfl | rfl <;> rfl
            · intro t n hn
              exact absurd hn (by simp)
          · -- retry with the next candidate
            rw [Option.map_eq_some'] at hr
            obtain ⟨r', hr', rfl⟩ := hr
            obtain ⟨h1, h2, h3⟩ := ih fs (suffix + 1) _ r' hr'
            refine ⟨h1, ?_, ?_⟩
            · intro e he
              simp at he
              rcases he with rfl | he
              · rfl
              · exact h2 e he
            · intro t n hn
              simp only at hn
              have := h3 t n hn
              simp
              exact this
      · -- candidate free: dry-run transfer branch
        obtain rfl := (Option.some.inj hr).symm
        obtain ⟨hx1, hx2⟩ := process_xmp_dry cfg fs file plan.name suffix plan.output h
        refine ⟨hx1, ?_, ?_⟩
        · intro e he
          simp at he
          rcases he with rfl | rfl | he
          · rfl
          · rfl
          · exact hx2 e he
        · intro t n hn
          simp only at hn
          split at hn
          · obtain ⟨rfl, rfl⟩ : t = target ∧ n = suffix := by
              cases hn
              exact ⟨rfl, rfl⟩
            simp
          · exact absurd hn (by simp)

/-- In dry-run mode `process_file` never mutates the filesystem, and a
planned transfer is still reported. -/
theorem process_file_dry (cfg : Config) (fs : FS) (file : String)
    (exif : Option ExifData) (date : Option DateInfo) (fuel : Nat)
    (r : Outcome × FS × List Event) (h : cfg.dry_run = true)
    (hr : process_file cfg fs file exif date fuel = some r) :
    r.2.1 = fs ∧ (∀ e ∈ r.2.2, eventMutates e = false) ∧
    (∀ t n, r.1 = .transferred t n → Event.report (" => " ++ t) ∈ r.2.2) := by
  unfold process_file at hr
  split at hr
  · obtain rfl := (Option.some.inj hr).symm
    refine ⟨rfl, ?_, ?_⟩
    · intro e he
      simp at he
    · intro t n hn
      exact absurd hn (by simp)
  · rw [Option.map_eq_some'] at hr
    obtain ⟨r', hr', rfl⟩ := hr
    have hpl := plan_dry cfg fs file exif date h
    obtain ⟨h1, h2, h3⟩ := process_file_loop_dry cfg _ file h _ _ _ _ r' hr'
    refine ⟨by dsimp only; rw [h1, hpl.1], ?_, ?_⟩
    · intro e he
      simp at he
      rcases he with rfl | he | he
      · rfl
      · exact hpl.2 e he
      · exact h2 e he
    · intro t n hn
      simp only at hn
      have := h3 t n hn
      simp
      exact Or.inr (Or.inr this)

/-- In dry-run mode a whole walk never mutates the filesystem. -/
theorem walk_directory_dry (cfg : Config) (meta : String → Option ExifData)
    (dates : String → Option DateInfo) (fuel : Nat) (h : cfg.dry_run = true) :
    ∀ (files : List String) (fs : FS) (r : FS × List Outcome × List Event),
      walk_directory cfg meta dates fuel fs files = some r →
      r.1 = fs ∧ ∀ e ∈ r.2.2, eventMutates e = false := by
  intro files
  induction files with
  | nil =>
    intro fs r hr
    obtain rfl := (Option.some.inj hr).symm
    exact ⟨rfl, by intro e he; simp at he⟩
  | cons f rest ih =>
    intro fs r hr
    unfold walk_directory at hr
    split at hr
    · rw [Option.map_eq_some'] at hr
      obtain ⟨r', hr', rfl⟩ := hr
      exact ⟨(ih fs r' hr').1, (ih fs r' hr').2⟩
    · split at hr
      · exact absurd hr (by simp)
      case _ out fs1 ev heq =>
        obtain ⟨hp1, hp2, _⟩ := process_file_dry cfg fs f (meta f) (dates f) fuel
          (out, fs1, ev) h heq
        split at hr
        · obtain rfl := (Option.some.inj hr).symm
          exact ⟨hp1, hp2⟩
        · rw [Option.map_eq_some'] at hr
          obtain ⟨r', hr', rfl⟩ := hr
          obtain ⟨hw1, hw2⟩ := ih fs1 r' hr'
          refine ⟨hw1.trans hp1, ?_⟩
          intro e he
          simp at he
          rcases he with he | he
          · exact hp2 e he
          · exact hw2 e he

/-- In dry-run mode `check_directories` does not create the output root. -/
theorem check_directories_dry (cfg : Config) (fs : FS) (input : String)
    (h : cfg.dry_run = true) :
    (check_directories cfg fs input).1 = fs ∧
    ∀ e ∈ (check_directories cfg fs input).2, eventMutates e = false := by
  unfold check_directories
  split
  · exact ⟨rfl, by intro e he; simp at he; subst he; rfl⟩
  · split
    · exact ⟨rfl, by intro e he; simp at he; subst he; rfl⟩
    · exact ⟨rfl, by intro e he; simp at he⟩

/-- C8: with the dry-run flag set, a full run performs no filesystem
mutation at all -- `check_directories` does not create the output root,
and a whole walk (planning, collision handling, primary and sidecar
transfers included) leaves the filesystem untouched and emits no
`makedirs`, copy, move or link call -- while a planned transfer is still
reported with its target path. -/
theorem C8_dry_run (cfg : Config) (hdry : cfg.dry_run = true) :
    (∀ (fs : FS) (input : String), (check_directories cfg fs input).1 = fs ∧
      ∀ e ∈ (check_directories cfg fs input).2, eventMutates e = false) ∧
    (∀ (meta : String → Option ExifData) (dates : String → Option DateInfo)
        (fuel : Nat) (files : List String) (fs : FS),
      wFS fs (walk_directory cfg meta dates fuel fs files) = fs ∧
      ∀ e ∈ wEv (walk_directory cfg meta dates fuel fs files), eventMutates e = false) ∧
    (∀ (fs : FS) (file : String) (exif : Option ExifData) (date : Option DateInfo)
        (fuel : Nat) (t : String) (n : Nat),
      rOut (process_file cfg fs file exif date fuel) = some (.transferred t n) →
      Event.report (" => " ++ t) ∈ rEv (process_file cfg fs file exif date fuel)) := by
  refine ⟨fun fs input => check_directories_dry cfg fs input hdry, ?_, ?_⟩
  · intro meta dates fuel files fs
    cases hw : walk_directory cfg meta dates fuel fs files with
    | none => exact ⟨rfl, by intro e he; simp [wEv] at he⟩
    | some r =>
      obtain ⟨h1, h2⟩ := walk_directory_dry cfg meta dates fuel hdry files fs r hw
      exact ⟨h1, h2⟩
  · intro fs file exif date fuel t n hout
    cases hp : process_file cfg fs file exif date fuel with
    | none => rw [hp] at hout; exact absurd hout (by simp [rOut])
    | some r =>
      rw [hp] at hout
      have hr1 : r.1 = .transferred t n := by
        simpa [rOut] using hout
      obtain ⟨_, _, h3⟩ := process_file_dry cfg fs file exif date fuel r hdry hp
      exact h3 t n hr1

def cfgDry : Config :=
  ⟨"o", defaultDirFormat, false, false, false, true, none⟩

def fsDry : FS := fsOf [("/in/a.jpg", 1)] []

/-- C8 witness: a concrete dry run over one image leaves the filesystem
unchanged and still reports the planned destination. -/
theorem C8_dry_run_witness :
    (cfgDry.dry_run = true) ∧
    wFS fsDry (walk_directory cfgDry (fun _ => some ⟨some "image/jpeg"⟩)
      (fun _ => some date0) 5 fsDry ["/in/a.jpg"]) = fsDry ∧
    (rOut (process_file cfgDry fsDry "/in/a.jpg"
        (some ⟨some "image/jpeg"⟩) (some date0) 5) =
      some (.transferred "o/2021/06/15/20210615-102030.jpg" 1)) ∧
    Event.report (" => " ++ "o/2021/06/15/20210615-102030.jpg") ∈
      rEv (process_file cfgDry fsDry "/in/a.jpg"
        (some ⟨some "image/jpeg"⟩) (some date0) 5) :=
  ⟨by decide,
    ((C8_dry_run cfgDry (by decide)).2.1 (fun _ => some ⟨some "image/jpeg"⟩)
      (fun _ => some date0) 5 ["/in/a.jpg"] fsDry).1,
    by decide,
    (C8_dry_run cfgDry (by decide)).2.2 fsDry "/in/a.jpg"
      (some ⟨some "image/jpeg"⟩) (some date0) 5
      "o/2021/06/15/20210615-102030.jpg" 1 (by decide)⟩

/-- Appending `.xmp` always yields a name ending in `.xmp`. -/
theorem pyEndsWith_append_xmp (s : String) : pyEndsWith (s ++ ".xmp") ".xmp" = true := by
  unfold pyEndsWith
  rw [String.data_append]
  have h4 : (".xmp".data : List Char).length = 4 := rfl
  rw [h4]
  have hlen : (s.data ++ ".xmp".data).length = s.data.length + 4 := by
    rw [List.length_append, h4]
  rw [hlen]
  have hle : 4 ≤ s.data.length + 4 := by omega
  have hdrop : (s.data ++ ".xmp".data).drop (s.data.length + 4 - 4) = ".xmp".data := by
    have : s.data.length + 4 - 4 = s.data.length := by omega
    rw [this]
    exact List.drop_left s.data ".xmp".data
  rw [hdrop]
  simp [hle]

/-- A path not ending in `.xmp` differs from one that does. -/
theorem ne_of_xmp_suffix {a b : String} (ha : pyEndsWith a ".xmp" = false)
    (hb : pyEndsWith b ".xmp" = true) : a ≠ b := by
  intro h
  rw [h, hb] at ha
  exact Bool.noConfusion ha

/-- Joining two components is plain separator concatenation. -/
theorem joinPath_pair (a b : String) : joinPath [a, b] = a ++ "/" ++ b := rfl

/-- A sidecar destination path always ends in `.xmp`. -/
theorem joinPath_xmp_suffix (o s : String) :
    pyEndsWith (joinPath [o, s ++ ".xmp"]) ".xmp" = true := by
  rw [joinPath_pair]
  have h : o ++ "/" ++ (s ++ ".xmp") = (o ++ "/" ++ s) ++ ".xmp" :=
    (String.append_assoc (o ++ "/") s ".xmp").symm
  rw [h]
  exact pyEndsWith_append_xmp _

/-- Every sidecar original and target name ends in `.xmp`. -/
theorem xmpPairs_shape (fs : FS) (file fname : String) (sfx : Nat) :
    ∀ p ∈ xmpPairs fs file fname sfx,
      (∃ a, p.1 = a ++ ".xmp") ∧ (∃ b, p.2 = b ++ ".xmp") := by
  intro p hp
  unfold xmpPairs at hp
  dsimp only at hp
  split at hp
  · split at hp
    · simp at hp
      subst hp
      exact ⟨⟨file, rfl⟩, ⟨(splitext fname).1 ++ suffixStr sfx, rfl⟩⟩
    · simp at hp
  · simp at hp
    rcases hp with ⟨h1, rfl⟩ | ⟨h1, rfl⟩
    · exact ⟨⟨file, rfl⟩, ⟨fname ++ suffixStr sfx, rfl⟩⟩
    · exact ⟨⟨(splitext file).1, rfl⟩, ⟨(splitext fname).1 ++ suffixStr sfx, rfl⟩⟩

/-- One sidecar transfer touches only its original and its destination,
and never the directory set. -/
theorem xmpTransferOne_frame (cfg : Config) (fs : FS) (o t output : String)
    (q : String) (hqo : q ≠ o) (hqt : q ≠ joinPath [output, t]) :
    (xmpTransferOne cfg fs o t output).1.files q = fs.files q ∧
    (xmpTransferOne cfg fs o t output).1.dirs = fs.dirs := by
  unfold xmpTransferOne
  dsimp only
  cases hd : cfg.dry_run
  · simp only [Bool.false_eq_true, if_false]
    cases hm : cfg.move
    · simp only [Bool.false_eq_true, if_false]
      cases hl : cfg.link
      · simp only [Bool.false_eq_true, if_false]
        cases hsf : fs.files o
        · exact ⟨rfl, rfl⟩
        · refine ⟨?_, rfl⟩
          show ((fs.setFile (joinPath [output, t]) _).files) q = fs.files q
          unfold FS.setFile
          dsimp only
          rw [if_neg hqt]
      · simp only [if_true]
        cases hsf : fs.files o
        · exact ⟨rfl, rfl⟩
        · dsimp only
          split
          · exact ⟨rfl, rfl⟩
          · refine ⟨?_, rfl⟩
            show ((fs.setFile (joinPath [output, t]) _).files) q = fs.files q
            unfold FS.setFile
            dsimp only
            rw [if_neg hqt]
    · simp only [if_true]
      cases hsf : fs.files o
      · exact ⟨rfl, rfl⟩
      · refine ⟨?_, rfl⟩
        show (((fs.delFile o).setFile (joinPath [output, t]) _).files) q = fs.files q
        unfold FS.setFile FS.delFile
        dsimp only
        rw [if_neg hqt, if_neg hqo]
  · simp only [if_true]
    exact ⟨by trivial, by trivial⟩

/-- The sidecar transfer loop leaves every path not ending in `.xmp`
untouched. -/
theorem xmpTransferList_frame (cfg : Config) (output : String) (q : String)
    (hq : pyEndsWith q ".xmp" = false) :
    ∀ (pairs : List (String × String)) (fs : FS),
      (∀ p ∈ pairs, (∃ a, p.1 = a ++ ".xmp") ∧ (∃ b, p.2 = b ++ ".xmp")) →
      (xmpTransferList cfg fs output pairs).1.files q = fs.files q ∧
      (xmpTransferList cfg fs output pairs).1.dirs = fs.dirs := by
  intro pairs
  induction pairs with
  | nil => exact fun fs _ => ⟨rfl, rfl⟩
  | cons p rest ih =>
    intro fs hp
    obtain ⟨⟨a, ha⟩, ⟨b, hb⟩⟩ := hp p (by simp)
    have hqo : q ≠ p.1 := ne_of_xmp_suffix hq (ha ▸ pyEndsWith_append_xmp a)
    have hqt : q ≠ joinPath [output, p.2] :=
      ne_of_xmp_suffix hq (hb ▸ joinPath_xmp_suffix output b)
    have hone := xmpTransferOne_frame cfg fs p.1 p.2 output q hqo hqt
    unfold xmpTransferList
    dsimp only
    split
    · have hrest := ih (xmpTransferOne cfg fs p.1 p.2 output).1
        (fun x hx => hp x (by simp [hx]))
      exact ⟨hrest.1.trans hone.1, hrest.2.trans hone.2⟩
    · exact hone

/-- `process_xmp` leaves every path not ending in `.xmp` untouched. -/
theorem process_xmp_frame (cfg : Config) (fs : FS) (file fname : String)
    (sfx : Nat) (output : String) (q : String) (hq : pyEndsWith q ".xmp" = false) :
    (process_xmp cfg fs file fname sfx output).1.files q = fs.files q ∧
    (process_xmp cfg fs file fname sfx output).1.dirs = fs.dirs := by
  unfold process_xmp
  dsimp only
  exact xmpTransferList_frame cfg output q hq (xmpPairs fs file fname sfx) fs
    (xmpPairs_shape fs file fname sfx)

/-- The first candidate is the canonical path itself. -/
theorem nthCandidate_one (p : String) : nthCandidate p 1 = p := by
  unfold nthCandidate
  rw [if_pos (by omega)]

/-- Every later candidate inserts the counter before the extension of the
canonical path. -/
theorem nthCandidate_succ (p : String) (n : Nat) (hn : 1 ≤ n) :
    nthCandidate p (n + 1) =
      (splitext p).1 ++ "-" ++ toString (n + 1) ++ (splitext p).2 := by
  unfold nthCandidate
  rw [if_neg (by omega)]

/-- With neither sidecar on disk the sidecar mapping is empty. -/
theorem xmpPairs_empty (fs : FS) (file fname : String) (sfx : Nat)
    (h1 : fs.files (file ++ ".xmp") = none)
    (h2 : fs.files ((splitext file).1 ++ ".xmp") = none) :
    xmpPairs fs file fname sfx = [] := by
  unfold xmpPairs
  dsimp only
  rw [h1, h2]
  split <;> simp

/-- With neither sidecar on disk `process_xmp` only probes. -/
theorem process_xmp_no_sidecars (cfg : Config) (fs : FS) (file fname : String)
    (sfx : Nat) (output : String)
    (h1 : fs.files (file ++ ".xmp") = none)
    (h2 : fs.files ((splitext file).1 ++ ".xmp") = none) :
    process_xmp cfg fs file fname sfx output =
      (fs, [Event.isFileProbe (file ++ ".xmp"),
        Event.isFileProbe ((splitext file).1 ++ ".xmp")], true) := by
  unfold process_xmp
  rw [xmpPairs_empty fs file fname sfx h1 h2]
  rfl

/-- The collision loop of `process_file`, started at candidate `n` of the
canonical path, ends only at a candidate that is either unoccupied or
occupied by content with the source's checksum; every candidate in
between is occupied with a different checksum, and every candidate probed
is derived from the canonical path by suffix insertion. -/
theorem loop_spec (cfg : Config) (plan : PlanResult) (file : String) (sc : Content)
    (htype : ¬(cfg.file_type ≠ plan.ftype ∧ cfg.file_type ≠ none)) :
    ∀ (fuel n : Nat) (fs : FS) (r : Outcome × FS × List Event), 1 ≤ n →
      fs.files file = some sc →
      process_file_loop cfg plan file fs n (nthCandidate plan.path n) fuel = some r →
      ∃ k, n ≤ k ∧
        (∀ j, n ≤ j → j < k → ∃ tc, fs.files (nthCandidate plan.path j) = some tc ∧
          checksum tc ≠ checksum sc) ∧
        ((∃ tc, fs.files (nthCandidate plan.path k) = some tc ∧
            checksum tc = checksum sc ∧
            r.1 = .skippedDuplicate (nthCandidate plan.path k)) ∨
         (fs.files (nthCandidate plan.path k) = none ∧
           (r.1 = .transferred (nthCandidate plan.path k) k ∨ r.1 = .uncaught))) := by
  intro fuel
  induction fuel with
  | zero =>
    intro n fs r hn hsrc hr
    exact absurd hr (by simp [process_file_loop])
  | succ fuel ih =>
    intro n fs r hn hsrc hr
    unfold process_file_loop at hr
    rw [if_neg htype] at hr
    split at hr
    case _ tc heq =>
      rw [hsrc] at hr
      dsimp only at hr
      split at hr
      case _ hck =>
        obtain rfl := (Option.some.inj hr).symm
        exact ⟨n, le_refl n, by omega, Or.inl ⟨tc, heq, hck.symm, rfl⟩⟩
      case _ hck =>
        rw [show (splitext plan.path).1 ++ "-" ++ toString (n + 1) ++ (splitext plan.path).2 =
            nthCandidate plan.path (n + 1) from (nthCandidate_succ plan.path n hn).symm] at hr
        rw [Option.map_eq_some'] at hr
        obtain ⟨r', hr', rfl⟩ := hr
        obtain ⟨k, hk1, hk2, hk3⟩ := ih (n + 1) fs r' (by omega) hsrc hr'
        refine ⟨k, by omega, ?_, ?_⟩
        · intro j hj1 hj2
          rcases Nat.eq_or_lt_of_le hj1 with rfl | hlt
          · exact ⟨tc, heq, fun hc => hck hc.symm⟩
          · exact hk2 j hlt hj2
        · exact hk3
    case _ heq =>
      refine ⟨n, le_refl n, by omega, Or.inr ⟨heq, ?_⟩⟩
      dsimp only at hr
      by_cases hd : cfg.dry_run = true
      · rw [hd] at hr
        simp only [if_true] at hr
        obtain rfl := (Option.some.inj hr).symm
        dsimp only
        split
        · exact Or.inl rfl
        · exact Or.inr rfl
      · rw [Bool.not_eq_true] at hd
        rw [hd] at hr
        simp only [Bool.false_eq_true, if_false] at hr
        by_cases hm : cfg.move = true
        · rw [hm] at hr
          simp only [if_true] at hr
          rw [hsrc] at hr
          obtain rfl := (Option.some.inj hr).symm
          dsimp only
          split
          · exact Or.inl rfl
          · exact Or.inr rfl
        · rw [Bool.not_eq_true] at hm
          rw [hm] at hr
          simp only [Bool.false_eq_true, if_false] at hr
          by_cases hl : cfg.link = true
          · rw [hl] at hr
            simp only [if_true] at hr
            rw [hsrc] at hr
            obtain rfl := (Option.some.inj hr).symm
            dsimp only
            split
            · exact Or.inl rfl
            · exact Or.inr rfl
          · rw [Bool.not_eq_true] at hl
            rw [hl] at hr
            simp only [Bool.false_eq_true, if_false] at hr
            rw [hsrc] at hr
            obtain rfl := (Option.some.inj hr).symm
            dsimp only
            split
            · exact Or.inl rfl
            · exact Or.inr rfl

/-- C4: under a passing type filter and a present source, every candidate
destination the collision loop probes is derived from the original
canonical path by inserting `-N` before its extension (`nthCandidate`),
candidates before the final one are occupied with a different checksum,
and the loop ends only at a candidate that is unoccupied or whose
occupant has the source's checksum. -/
theorem C4_collision_candidates (cfg : Config) (fs : FS) (file : String) (exif : Option ExifData)
    (date : Option DateInfo) (fuel : Nat) (sc : Content)
    (hxmp : pyEndsWith file ".xmp" = false)
    (hsrc : fs.files file = some sc)
    (htype : cfg.file_type = none ∨ cfg.file_type = exifType exif)
    (hsome : (process_file cfg fs file exif date fuel).isSome = true) :
    ∃ k, 1 ≤ k ∧
      (∀ j, 1 ≤ j → j < k →
        ∃ tc, fs.files (nthCandidate
            (get_file_name_and_path cfg fs file exif date).1.path j) = some tc ∧
          checksum tc ≠ checksum sc) ∧
      ((∃ tc, fs.files (nthCandidate
            (get_file_name_and_path cfg fs file exif date).1.path k) = some tc ∧
          checksum tc = checksum sc ∧
          rOut (process_file cfg fs file exif date fuel) =
            some (.skippedDuplicate (nthCandidate
              (get_file_name_and_path cfg fs file exif date).1.path k))) ∨
       (fs.files (nthCandidate
            (get_file_name_and_path cfg fs file exif date).1.path k) = none ∧
         (rOut (process_file cfg fs file exif date fuel) =
            some (.transferred (nthCandidate
              (get_file_name_and_path cfg fs file exif date).1.path k) k) ∨
          rOut (process_file cfg fs file exif date fuel) = some .uncaught))) := by
  rw [Option.isSome_iff_exists] at hsome
  obtain ⟨r, hr⟩ := hsome
  have hro : rOut (process_file cfg fs file exif date fuel) = some r.1 := by
    rw [hr]; rfl
  unfold process_file at hr
  rw [hxmp] at hr
  simp only [Bool.false_eq_true, if_false] at hr
  rw [Option.map_eq_some'] at hr
  obtain ⟨r', hr', rfl⟩ := hr
  have hcond : ¬ (cfg.file_type ≠ (get_file_name_and_path cfg fs file exif date).1.ftype ∧
      cfg.file_type ≠ none) := by
    rcases htype with h | h
    · exact fun hc => hc.2 h
    · exact fun hc => hc.1 (by rw [h, plan_ftype])
  have hsrc2 : ((get_file_name_and_path cfg fs file exif date).2.1).files file = some sc := by
    rw [plan_files]; exact hsrc
  rw [show (get_file_name_and_path cfg fs file exif date).1.path =
      nthCandidate (get_file_name_and_path cfg fs file exif date).1.path 1 from
      (nthCandidate_one _).symm] at hr'
  obtain ⟨k, hk1, hk2, hk3⟩ := loop_spec cfg (get_file_name_and_path cfg fs file exif date).1
    file sc hcond fuel 1 (get_file_name_and_path cfg fs file exif date).2.1 r'
    (le_refl 1) hsrc2 hr'
  refine ⟨k, hk1, ?_, ?_⟩
  · intro j hj1 hj2
    obtain ⟨tc, htc1, htc2⟩ := hk2 j hj1 hj2
    rw [plan_files] at htc1
    exact ⟨tc, htc1, htc2⟩
  · rcases hk3 with ⟨tc, htc1, htc2, htc3⟩ | ⟨hfree, hout⟩
    · rw [plan_files] at htc1
      exact Or.inl ⟨tc, htc1, htc2, by rw [hro, htc3]⟩
    · rw [plan_files] at hfree
      refine Or.inr ⟨hfree, ?_⟩
      rcases hout with h | h
      · exact Or.inl (by rw [hro, h])
      · exact Or.inr (by rw [hro, h])

/-- C4 witness: in the RAW scenario the loop stops at candidate 2, with
candidate 1 occupied by different content. -/
theorem C4_collision_candidates_witness :
    (pyEndsWith "/in/DSC001.CR2" ".xmp" = false) ∧
    (fsC1.files "/in/DSC001.CR2" = some 1) ∧
    (cfgCopy.file_type = none ∨
      cfgCopy.file_type = exifType (some ⟨some "image/x-canon-cr2"⟩)) ∧
    ((process_file cfgCopy fsC1 "/in/DSC001.CR2"
        (some ⟨some "image/x-canon-cr2"⟩) (some date0) 5).isSome = true) ∧
    (∃ k, 1 ≤ k ∧
      (∀ j, 1 ≤ j → j < k →
        ∃ tc, fsC1.files (nthCandidate
            (get_file_name_and_path cfgCopy fsC1 "/in/DSC001.CR2"
              (some ⟨some "image/x-canon-cr2"⟩) (some date0)).1.path j) = some tc ∧
          checksum tc ≠ checksum 1) ∧
      ((∃ tc, fsC1.files (nthCandidate
            (get_file_name_and_path cfgCopy fsC1 "/in/DSC001.CR2"
              (some ⟨some "image/x-canon-cr2"⟩) (some date0)).1.path k) = some tc ∧
          checksum tc = checksum 1 ∧
          rOut (process_file cfgCopy fsC1 "/in/DSC001.CR2"
              (some ⟨some "image/x-canon-cr2"⟩) (some date0) 5) =
            some (.skippedDuplicate (nthCandidate
              (get_file_name_and_path cfgCopy fsC1 "/in/DSC001.CR2"
                (some ⟨some "image/x-canon-cr2"⟩) (some date0)).1.path k))) ∨
       (fsC1.files (nthCandidate
            (get_file_name_and_path cfgCopy fsC1 "/in/DSC001.CR2"
              (some ⟨some "image/x-canon-cr2"⟩) (some date0)).1.path k) = none ∧
         (rOut (process_file cfgCopy fsC1 "/in/DSC001.CR2"
              (some ⟨some "image/x-canon-cr2"⟩) (some date0) 5) =
            some (.transferred (nthCandidate
              (get_file_name_and_path cfgCopy fsC1 "/in/DSC001.CR2"
                (some ⟨some "image/x-canon-cr2"⟩) (some date0)).1.path k) k) ∨
          rOut (process_file cfgCopy fsC1 "/in/DSC001.CR2"
              (some ⟨some "image/x-canon-cr2"⟩) (some date0) 5) = some .uncaught)))) :=
  ⟨by decide, by decide, Or.inl (by decide), by decide,
    C4_collision_candidates cfgCopy fsC1 "/in/DSC001.CR2"
      (some ⟨some "image/x-canon-cr2"⟩) (some date0) 5 1
      (by decide) (by decide) (Or.inl (by decide)) (by decide)⟩

/-- Frame property of the collision loop, in every transfer mode: any
pre-existing file at a path other than the source and not ending in
`.xmp` is preserved verbatim; directories are only added; a transfer goes
only to an unoccupied candidate, and afterwards that candidate holds the
source's content. -/
theorem loop_frame (cfg : Config) (plan : PlanResult) (file : String) :
    ∀ (fuel : Nat) (fs : FS) (suffix : Nat) (target : String)
      (r : Outcome × FS × List Event),
      process_file_loop cfg plan file fs suffix target fuel = some r →
      (∀ q c, q ≠ file → pyEndsWith q ".xmp" = false → fs.files q = some c →
        r.2.1.files q = some c) ∧
      (∀ q, fs.dirs q = true → r.2.1.dirs q = true) ∧
      (∀ t n, r.1 = .transferred t n → fs.files t = none) ∧
      (∀ t n, r.1 = .transferred t n → pyEndsWith t ".xmp" = false →
        cfg.dry_run = false → r.2.1.files t = fs.files file) := by
  intro fuel
  induction fuel with
  | zero =>
    intro fs suffix target r hr
    exact absurd hr (by simp [process_file_loop])
  | succ fuel ih =>
    intro fs suffix target r hr
    unfold process_file_loop at hr
    split at hr
    · obtain rfl := (Option.some.inj hr).symm
      exact ⟨fun q c _ _ hq => hq, fun q hq => hq, fun t n hn => absurd hn (by simp),
        fun t n hn => absurd hn (by simp)⟩
    · split at hr
      case _ tc heq =>
        split at hr
        · obtain rfl := (Option.some.inj hr).symm
          exact ⟨fun q c _ _ hq => hq, fun q hq => hq, fun t n hn => absurd hn (by simp),
        fun t n hn => absurd hn (by simp)⟩
        case _ sc heqf =>
          split at hr
          · obtain rfl := (Option.some.inj hr).symm
            exact ⟨fun q c _ _ hq => hq, fun q hq => hq, fun t n hn => absurd hn (by simp),
        fun t n hn => absurd hn (by simp)⟩
          · rw [Option.map_eq_some'] at hr
            obtain ⟨r', hr', rfl⟩ := hr
            obtain ⟨h1, h2, h3, h4⟩ := ih fs (suffix + 1) _ r' hr'
            exact ⟨h1, h2, fun t n hn => h3 t n hn, fun t n hn => h4 t n hn⟩
      case _ heq =>
        dsimp only at hr
        by_cases hd : cfg.dry_run = true
        · rw [hd] at hr
          simp only [if_true] at hr
          obtain rfl := (Option.some.inj hr).symm
          refine ⟨?_, ?_, ?_, ?_⟩
          · intro q c _ hq hold
            dsimp only
            rw [(process_xmp_frame cfg fs file plan.name suffix plan.output q hq).1]
            exact hold
          · intro q hq
            dsimp only
            rw [(process_xmp_frame cfg fs file plan.name suffix plan.output ""
              (by decide)).2]
            exact hq
          · intro t n hn
            dsimp only at hn
            split at hn
            · cases hn
              exact heq
            · exact absurd hn (by simp)
          · intro t n hn hxt hdf
            rw [hd] at hdf
            exact Bool.noConfusion hdf
        · rw [Bool.not_eq_true] at hd
          rw [hd] at hr
          simp only [Bool.false_eq_true, if_false] at hr
          by_cases hm : cfg.move = true
          · rw [hm] at hr
            simp only [if_true] at hr
            cases hsf : fs.files file with
            | none =>
              rw [hsf] at hr
              dsimp only at hr
              obtain rfl := (Option.some.inj hr).symm
              exact ⟨fun q c _ _ hq => hq, fun q hq => hq, fun t n hn => absurd hn (by simp),
        fun t n hn => absurd hn (by simp)⟩
            | some c0 =>
              rw [hsf] at hr
              dsimp only at hr
              obtain rfl := (Option.some.inj hr).symm
              refine ⟨?_, ?_, ?_, ?_⟩
              · intro q c hqf hq hold
                dsimp only
                rw [(process_xmp_frame cfg _ file plan.name suffix plan.output q hq).1]
                have hqt : q ≠ target := by
                  intro h
                  rw [h, heq] at hold
                  exact Option.noConfusion hold
                show (((fs.delFile file).setFile target c0).files) q = some c
                unfold FS.setFile FS.delFile
                dsimp only
                rw [if_neg hqt, if_neg hqf]
                exact hold
              · intro q hq
                dsimp only
                rw [(process_xmp_frame cfg _ file plan.name suffix plan.output ""
                  (by decide)).2]
                exact hq
              · intro t n hn
                dsimp only at hn
                split at hn
                · cases hn
                  exact heq
                · exact absurd hn (by simp)
              · intro t n hn hxt hdf
                dsimp only at hn
                split at hn
                · cases hn
                  dsimp only
                  rw [(process_xmp_frame cfg _ file plan.name suffix plan.output target hxt).1]
                  show (((fs.delFile file).setFile target c0).files) target = some c0
                  unfold FS.setFile FS.delFile
                  dsimp only
                  rw [if_pos rfl]
                · exact absurd hn (by simp)
          · rw [Bool.not_eq_true] at hm
            rw [hm] at hr
            simp only [Bool.false_eq_true, if_false] at hr
            by_cases hl : cfg.link = true
            · rw [hl] at hr
              simp only [if_true] at hr
              cases hsf : fs.files file with
              | none =>
                rw [hsf] at hr
                dsimp only at hr
                obtain rfl := (Option.some.inj hr).symm
                exact ⟨fun q c _ _ hq => hq, fun q hq => hq,
                  fun t n hn => absurd hn (by simp), fun t n hn => absurd hn (by simp)⟩
              | some c0 =>
                rw [hsf] at hr
                dsimp only at hr
                obtain rfl := (Option.some.inj hr).symm
                refine ⟨?_, ?_, ?_, ?_⟩
                · intro q c hqf hq hold
                  dsimp only
                  rw [(process_xmp_frame cfg _ file plan.name suffix plan.output q hq).1]
                  have hqt : q ≠ target := by
                    intro h
                    rw [h, heq] at hold
                    exact Option.noConfusion hold
                  show ((fs.setFile target c0).files) q = some c
                  unfold FS.setFile
                  dsimp only
                  rw [if_neg hqt]
                  exact hold
                · intro q hq
                  dsimp only
                  rw [(process_xmp_frame cfg _ file plan.name suffix plan.output ""
                    (by decide)).2]
                  exact hq
                · intro t n hn
                  dsimp only at hn
                  split at hn
                  · cases hn
                    exact heq
                  · exact absurd hn (by simp)
                · intro t n hn hxt hdf
                  dsimp only at hn
                  split at hn
                  · cases hn
                    dsimp only
                    rw [(process_xmp_frame cfg _ file plan.name suffix plan.output target hxt).1]
                    show ((fs.setFile target c0).files) target = some c0
                    unfold FS.setFile
                    dsimp only
                    rw [if_pos rfl]
                  · exact absurd hn (by simp)
            · rw [Bool.not_eq_true] at hl
              rw [hl] at hr
              simp only [Bool.false_eq_true, if_false] at hr
              cases hsf : fs.files file with
              | none =>
                rw [hsf] at hr
                dsimp only at hr
                obtain rfl := (Option.some.inj hr).symm
                exact ⟨fun q c _ _ hq => hq, fun q hq => hq,
                  fun t n hn => absurd hn (by simp), fun t n hn => absurd hn (by simp)⟩
              | some c0 =>
                rw [hsf] at hr
                dsimp only at hr
                obtain rfl := (Option.some.inj hr).symm
                refine ⟨?_, ?_, ?_, ?_⟩
                · intro q c hqf hq hold
                  dsimp only
                  rw [(process_xmp_frame cfg _ file plan.name suffix plan.output q hq).1]
                  have hqt : q ≠ target := by
                    intro h
                    rw [h, heq] at hold
                    exact Option.noConfusion hold
                  show ((fs.setFile target c0).files) q = some c
                  unfold FS.setFile
                  dsimp only
                  rw [if_neg hqt]
                  exact hold
                · intro q hq
                  dsimp only
                  rw [(process_xmp_frame cfg _ file plan.name suffix plan.output ""
                    (by decide)).2]
                  exact hq
                · intro t n hn
                  dsimp only at hn
                  split at hn
                  · cases hn
                    exact heq
                  · exact absurd hn (by simp)
                · intro t n hn hxt hdf
                  dsimp only at hn
                  split at hn
                  · cases hn
                    dsimp only
                    rw [(process_xmp_frame cfg _ file plan.name suffix plan.output target hxt).1]
                    show ((fs.setFile target c0).files) target = some c0
                    unfold FS.setFile
                    dsimp only
                    rw [if_pos rfl]
                  · exact absurd hn (by simp)

/-- C5 (amended): a primary transfer is performed only to a path where no
file currently exists, and a run never overwrites any pre-existing file
at a path other than the source that does not end in `.xmp`; after a real
(non-dry) transfer the target holds the source's content, so two
distinct-content sources resolving to the same canonical name both end up
present.  Sidecar (`.xmp`) destinations are exempt: `process_xmp` performs
no collision check and can overwrite them (see the counterexample). -/
theorem C5_no_overwrite (cfg : Config) (fs : FS) (file : String) (exif : Option ExifData)
    (date : Option DateInfo) (fuel : Nat) :
    (∀ q c, q ≠ file → pyEndsWith q ".xmp" = false → fs.files q = some c →
      (rFS fs (process_file cfg fs file exif date fuel)).files q = some c) ∧
    (∀ t n, rOut (process_file cfg fs file exif date fuel) =
        some (.transferred t n) → fs.files t = none) ∧
    (∀ t n, rOut (process_file cfg fs file exif date fuel) =
        some (.transferred t n) → pyEndsWith t ".xmp" = false →
      cfg.dry_run = false →
      (rFS fs (process_file cfg fs file exif date fuel)).files t = fs.files file) := by
  cases hp : process_file cfg fs file exif date fuel with
  | none =>
    refine ⟨fun q c _ _ hq => hq, ?_, ?_⟩ <;>
      (intro t n hn; exact absurd hn (by simp [rOut]))
  | some r =>
    unfold process_file at hp
    split at hp
    · obtain rfl := (Option.some.inj hp).symm
      refine ⟨fun q c _ _ hq => hq, ?_, ?_⟩ <;>
        (intro t n hn; exact absurd (Option.some.inj hn) (by simp))
    · rw [Option.map_eq_some'] at hp
      obtain ⟨r', hp', rfl⟩ := hp
      obtain ⟨h1, h2, h3, h4⟩ := loop_frame cfg
        (get_file_name_and_path cfg fs file exif date).1 file fuel
        (get_file_name_and_path cfg fs file exif date).2.1 1
        ((get_file_name_and_path cfg fs file exif date).1.path) r' hp'
      refine ⟨?_, ?_, ?_⟩
      · intro q c hqf hq hold
        exact h1 q c hqf hq (by rw [plan_files]; exact hold)
      · intro t n hn
        have := h3 t n (Option.some.inj hn)
        rw [plan_files] at this
        exact this
      · intro t n hn hxt hdf
        have := h4 t n (Option.some.inj hn) hxt hdf
        rw [plan_files] at this
        exact this

def fsC5 : FS :=
  fsOf [("/in/a.jpg", 1), ("/in/a.jpg.xmp", 5),
        ("o/2021/06/15/20210615-102030.jpg.xmp", 7)]
    ["o", "o/2021/06/15"]

/-- C5 counterexample: the primary transfer is collision-checked, but its
sidecar copy overwrites a pre-existing destination file: the sidecar
target `20210615-102030.jpg.xmp`, occupied with content 7, ends up with
the sidecar's content 5 -- the pipeline overwrote an existing destination
file. -/
theorem C5_counterexample :
    fsC5.files "o/2021/06/15/20210615-102030.jpg.xmp" = some 7 ∧
    rOut (process_file cfgCopy fsC5 "/in/a.jpg"
        (some ⟨some "image/jpeg"⟩) (some date0) 5) =
      some (.transferred "o/2021/06/15/20210615-102030.jpg" 1) ∧
    (rFS fsC5 (process_file cfgCopy fsC5 "/in/a.jpg"
        (some ⟨some "image/jpeg"⟩) (some date0) 5)).files
      "o/2021/06/15/20210615-102030.jpg.xmp" = some 5 :=
  ⟨by decide, by decide, by decide⟩

/-- C5 witness: in the RAW collision scenario, the occupied canonical
destination is preserved, the transfer goes to the unoccupied suffixed
candidate, and that candidate then holds the source's content -- both
files are present. -/
theorem C5_no_overwrite_witness :
    ("o/2021/06/15/20210615-102030.cr2" ≠ "/in/DSC001.CR2") ∧
    (pyEndsWith "o/2021/06/15/20210615-102030.cr2" ".xmp" = false) ∧
    (fsC1.files "o/2021/06/15/20210615-102030.cr2" = some 2) ∧
    ((rFS fsC1 (process_file cfgCopy fsC1 "/in/DSC001.CR2"
        (some ⟨some "image/x-canon-cr2"⟩) (some date0) 5)).files
      "o/2021/06/15/20210615-102030.cr2" = some 2) ∧
    (rOut (process_file cfgCopy fsC1 "/in/DSC001.CR2"
        (some ⟨some "image/x-canon-cr2"⟩) (some date0) 5) =
      some (.transferred "o/2021/06/15/20210615-102030-2.cr2" 2)) ∧
    (fsC1.files "o/2021/06/15/20210615-102030-2.cr2" = none) ∧
    ((rFS fsC1 (process_file cfgCopy fsC1 "/in/DSC001.CR2"
        (some ⟨some "image/x-canon-cr2"⟩) (some date0) 5)).files
      "o/2021/06/15/20210615-102030-2.cr2" =
      fsC1.files "/in/DSC001.CR2") :=
  ⟨by decide, by decide, by decide,
    (C5_no_overwrite cfgCopy fsC1 "/in/DSC001.CR2"
        (some ⟨some "image/x-canon-cr2"⟩) (some date0) 5).1
      "o/2021/06/15/20210615-102030.cr2" 2 (by decide) (by decide) (by decide),
    by decide,
    (C5_no_overwrite cfgCopy fsC1 "/in/DSC001.CR2"
        (some ⟨some "image/x-canon-cr2"⟩) (some date0) 5).2.1
      "o/2021/06/15/20210615-102030-2.cr2" 2 (by decide),
    (C5_no_overwrite cfgCopy fsC1 "/in/DSC001.CR2"
        (some ⟨some "image/x-canon-cr2"⟩) (some date0) 5).2.2
      "o/2021/06/15/20210615-102030-2.cr2" 2 (by decide) (by decide) (by decide)⟩

/-- Between two filesystem states: every file not named like a sidecar is
still present with the same content.  A copy-mode run satisfies this: it
only ever writes to unoccupied candidate paths, except for sidecar targets
(which end in `.xmp`). -/
def preservesNonXmp (a b : FS) : Prop :=
  ∀ q c, pyEndsWith q ".xmp" = false → a.files q = some c → b.files q = some c

def preservesDirs (a b : FS) : Prop :=
  ∀ q, a.dirs q = true → b.dirs q = true

theorem preservesNonXmp_trans {a b c : FS} (h1 : preservesNonXmp a b)
    (h2 : preservesNonXmp b c) : preservesNonXmp a c :=
  fun q cc hq hf => h2 q cc hq (h1 q cc hq hf)

theorem preservesDirs_trans {a b c : FS} (h1 : preservesDirs a b)
    (h2 : preservesDirs b c) : preservesDirs a c :=
  fun q hq => h2 q (h1 q hq)

theorem preservesNonXmp_refl (a : FS) : preservesNonXmp a a := fun _ _ _ hq => hq

theorem preservesDirs_refl (a : FS) : preservesDirs a a := fun _ hq => hq

theorem setFile_isSome (fs : FS) (p : String) (c : Content) (q : String)
    (h : (fs.files q).isSome = true) : ((fs.setFile p c).files q).isSome = true := by
  unfold FS.setFile
  dsimp only
  split
  · rfl
  · exact h

/-- Every sidecar original listed by the `xmp_files` mapping exists on
disk: the mapping only registers originals that pass the `isfile` probe. -/
theorem xmpPairs_sources (fs : FS) (file fname : String) (sfx : Nat) :
    ∀ p ∈ xmpPairs fs file fname sfx, (fs.files p.1).isSome = true := by
  intro p hp
  unfold xmpPairs at hp
  dsimp only at hp
  split at hp
  · split at hp
    case _ h =>
      simp only [List.mem_singleton] at hp
      subst hp
      exact h
    case _ => simp at hp
  · rcases List.mem_append.mp hp with hp | hp
    · split at hp
      case _ h =>
        simp only [List.mem_singleton] at hp
        subst hp
        exact h
      case _ => simp at hp
    · split at hp
      case _ h =>
        simp only [List.mem_singleton] at hp
        subst hp
        exact h
      case _ => simp at hp

/-- In copy mode the sidecar transfer loop never raises: `shutil.copy2`
succeeds whenever the original exists, and copying never removes a file,
so every later original of the mapping is still present. -/
theorem xmpTransferList_copy_flag (cfg : Config) (output : String)
    (hmove : cfg.move = false) (hlink : cfg.link = false) (hdry : cfg.dry_run = false) :
    ∀ (pairs : List (String × String)) (fs : FS),
      (∀ p ∈ pairs, (fs.files p.1).isSome = true) →
      (xmpTransferList cfg fs output pairs).2.2 = true := by
  intro pairs
  induction pairs with
  | nil => intro fs _; rfl
  | cons p rest ih =>
    intro fs hp
    obtain ⟨o, t⟩ := p
    have hsrc : (fs.files o).isSome = true := hp (o, t) (by simp)
    rw [Option.isSome_iff_exists] at hsrc
    obtain ⟨c, hc⟩ := hsrc
    have hone : xmpTransferOne cfg fs o t output =
        (fs.setFile (joinPath [output, t]) c,
          [Event.report (o ++ " => " ++ joinPath [output, t]),
            .fcopy o (joinPath [output, t])], true) := by
      unfold xmpTransferOne
      dsimp only
      rw [hdry]
      simp only [Bool.false_eq_true, if_false]
      rw [hmove]
      simp only [Bool.false_eq_true, if_false]
      rw [hlink]
      simp only [Bool.false_eq_true, if_false]
      rw [hc]
      rfl
    unfold xmpTransferList
    dsimp only
    rw [hone]
    dsimp only
    rw [if_pos rfl]
    exact ih (fs.setFile (joinPath [output, t]) c)
      (fun x hx => setFile_isSome fs _ c x.1 (hp x (by simp [hx])))

/-- In copy mode `process_xmp` always completes without raising. -/
theorem process_xmp_copy_flag (cfg : Config) (fs : FS) (file fname : String)
    (sfx : Nat) (output : String)
    (hmove : cfg.move = false) (hlink : cfg.link = false) (hdry : cfg.dry_run = false) :
    (process_xmp cfg fs file fname sfx output).2.2 = true := by
  unfold process_xmp
  dsimp only
  exact xmpTransferList_copy_flag cfg output hmove hlink hdry
    (xmpPairs fs file fname sfx) fs (xmpPairs_sources fs file fname sfx)

/-- Exact characterization of the copy-mode collision loop when the source
is present and no candidate is named like a sidecar: the loop stops at the
first candidate that is unoccupied (a transfer: the candidate receives the
source content, sidecars may additionally be written to `.xmp`-named
paths, directories are untouched) or occupied by equal-checksum content (a
duplicate skip: the filesystem is untouched and no transfer event is
emitted); every candidate before the stopping one is occupied by content
of a different checksum. -/
theorem loop_exact (cfg : Config) (plan : PlanResult) (file : String) (sc : Content)
    (hmove : cfg.move = false) (hlink : cfg.link = false) (hdry : cfg.dry_run = false)
    (htype : ¬(cfg.file_type ≠ plan.ftype ∧ cfg.file_type ≠ none)) :
    ∀ (fuel n : Nat) (fs : FS) (r : Outcome × FS × List Event), 1 ≤ n →
      fs.files file = some sc →
      (∀ k, n ≤ k → k < n + fuel → pyEndsWith (nthCandidate plan.path k) ".xmp" = false) →
      process_file_loop cfg plan file fs n (nthCandidate plan.path n) fuel = some r →
      ∃ k, n ≤ k ∧ k < n + fuel ∧
        (∀ j, n ≤ j → j < k → ∃ tc, fs.files (nthCandidate plan.path j) = some tc ∧
          checksum tc ≠ checksum sc) ∧
        ((∃ tc, fs.files (nthCandidate plan.path k) = some tc ∧
            checksum tc = checksum sc ∧
            r.1 = .skippedDuplicate (nthCandidate plan.path k) ∧ r.2.1 = fs ∧
            (∀ e ∈ r.2.2, eventTransfers e = false)) ∨
         (fs.files (nthCandidate plan.path k) = none ∧
           r.1 = .transferred (nthCandidate plan.path k) k ∧
           (∀ q, pyEndsWith q ".xmp" = false →
             r.2.1.files q = (fs.setFile (nthCandidate plan.path k) sc).files q) ∧
           r.2.1.dirs = fs.dirs)) := by
  intro fuel
  induction fuel with
  | zero =>
    intro n fs r hn hsrc hnx hr
    exact absurd hr (by simp [process_file_loop])
  | succ fuel ih =>
    intro n fs r hn hsrc hnx hr
    unfold process_file_loop at hr
    rw [if_neg htype] at hr
    split at hr
    case _ tc heq =>
      rw [hsrc] at hr
      dsimp only at hr
      split at hr
      case _ hck =>
        obtain rfl := (Option.some.inj hr).symm
        refine ⟨n, le_refl n, by omega, by omega, Or.inl ⟨tc, heq, hck.symm, rfl, rfl, ?_⟩⟩
        intro e he
        simp at he
        rcases he with rfl | rfl <;> rfl
      case _ hck =>
        rw [show (splitext plan.path).1 ++ "-" ++ toString (n + 1) ++ (splitext plan.path).2 =
            nthCandidate plan.path (n + 1) from (nthCandidate_succ plan.path n hn).symm] at hr
        rw [Option.map_eq_some'] at hr
        obtain ⟨r', hr', rfl⟩ := hr
        obtain ⟨k, hk1, hk1b, hk2, hk3⟩ := ih (n + 1) fs r' (by omega) hsrc
          (fun k hk1 hk2 => hnx k (by omega) (by omega)) hr'
        refine ⟨k, by omega, by omega, ?_, ?_⟩
        · intro j hj1 hj2
          rcases Nat.eq_or_lt_of_le hj1 with rfl | hlt
          · exact ⟨tc, heq, fun hc => hck hc.symm⟩
          · exact hk2 j hlt hj2
        · rcases hk3 with ⟨tc2, h1, h2, h3, h4, h5⟩ | ⟨h1, h2, h3, h4⟩
          · refine Or.inl ⟨tc2, h1, h2, h3, h4, ?_⟩
            intro e he
            simp at he
            rcases he with rfl | he
            · rfl
            · exact h5 e he
          · exact Or.inr ⟨h1, h2, h3, h4⟩
    case _ heq =>
      dsimp only at hr
      rw [hdry] at hr
      simp only [Bool.false_eq_true, if_false] at hr
      rw [hmove] at hr
      simp only [Bool.false_eq_true, if_false] at hr
      rw [hlink] at hr
      simp only [Bool.false_eq_true, if_false] at hr
      rw [hsrc] at hr
      dsimp only at hr
      rw [process_xmp_copy_flag cfg _ file plan.name n plan.output hmove hlink hdry] at hr
      rw [if_pos rfl] at hr
      obtain rfl := (Option.some.inj hr).symm
      refine ⟨n, le_refl n, by omega, by omega, Or.inr ⟨heq, rfl, ?_, ?_⟩⟩
      · intro q hq
        exact (process_xmp_frame cfg _ file plan.name n plan.output q hq).1
      · exact (process_xmp_frame cfg _ file plan.name n plan.output "" (by decide)).2
theorem loop_dup (cfg : Config) (plan : PlanResult) (file : String) (sc : Content)
    (htype : ¬(cfg.file_type ≠ plan.ftype ∧ cfg.file_type ≠ none)) :
    ∀ (fuel k n : Nat) (fs : FS), 1 ≤ n → n ≤ k → k < n + fuel →
      fs.files file = some sc →
      (∀ j, n ≤ j → j < k → ∃ tc, fs.files (nthCandidate plan.path j) = some tc ∧
        checksum tc ≠ checksum sc) →
      (∃ tc, fs.files (nthCandidate plan.path k) = some tc ∧
        checksum tc = checksum sc) →
      ∃ evs, process_file_loop cfg plan file fs n (nthCandidate plan.path n) fuel =
          some (.skippedDuplicate (nthCandidate plan.path k), fs, evs) ∧
        ∀ e ∈ evs, eventTransfers e = false := by
  intro fuel
  induction fuel with
  | zero =>
    intro k n fs hn hnk hkb
    omega
  | succ fuel ih =>
    intro k n fs hn hnk hkb hsrc hfront hkeq
    rcases Nat.eq_or_lt_of_le hnk with rfl | hlt
    · obtain ⟨tc, htc, hck⟩ := hkeq
      refine ⟨[Event.isFileProbe (nthCandidate plan.path n),
        Event.report (" => skipped, duplicated file " ++ nthCandidate plan.path n)], ?_, ?_⟩
      · unfold process_file_loop
        rw [if_neg htype, htc, hsrc]
        dsimp only
        rw [if_pos hck.symm]
      · intro e he
        simp at he
        rcases he with rfl | rfl <;> rfl
    · obtain ⟨tc, htc, hneq⟩ := hfront n (le_refl n) hlt
      obtain ⟨evs', hev', hevp⟩ := ih k (n + 1) fs (by omega) (by omega) (by omega) hsrc
        (fun j h1 h2 => hfront j (by omega) h2) hkeq
      refine ⟨Event.isFileProbe (nthCandidate plan.path n) :: evs', ?_, ?_⟩
      · unfold process_file_loop
        rw [if_neg htype, htc, hsrc]
        dsimp only
        rw [if_neg (fun hc => hneq hc.symm)]
        rw [show (splitext plan.path).1 ++ "-" ++ toString (n + 1) ++ (splitext plan.path).2 =
            nthCandidate plan.path (n + 1) from (nthCandidate_succ plan.path n hn).symm]
        rw [hev']
        rfl
      · intro e he
        simp at he
        rcases he with rfl | he
        · rfl
        · exact hevp e he

theorem get_output_dir_noop (cfg : Config) (fs : FS) (date : Option DateInfo)
    (h : fs.dirs ((get_output_dir cfg fs date).1) = true) :
    (get_output_dir cfg fs date).2.1 = fs := by
  rw [get_output_dir_fst] at h
  unfold get_output_dir
  cases date with
  | none =>
    dsimp only
    rw [if_neg (fun hc => by rw [h] at hc; exact Bool.noConfusion hc.1)]
  | some d =>
    dsimp only
    dsimp only at h
    rw [if_neg (fun hc => by rw [h] at hc; exact Bool.noConfusion hc.1)]

theorem plan_noop (cfg : Config) (fs : FS) (file : String) (exif : Option ExifData)
    (date : Option DateInfo)
    (h : fs.dirs ((get_file_name_and_path cfg fs file exif date).1.output) = true) :
    (get_file_name_and_path cfg fs file exif date).2.1 = fs := by
  revert h
  unfold get_file_name_and_path
  cases exifType exif <;> dsimp only <;> intro h <;> exact get_output_dir_noop cfg fs _ h

theorem plan_dirs_mono (cfg : Config) (fs : FS) (file : String)
    (exif : Option ExifData) (date : Option DateInfo) (q : String)
    (h : fs.dirs q = true) :
    ((get_file_name_and_path cfg fs file exif date).2.1).dirs q = true := by
  unfold get_file_name_and_path
  cases exifType exif <;> dsimp only <;> exact get_output_dir_dirs_mono cfg fs _ q h


/-- Per-file specification of a copy-mode `process_file` run: files not
named like sidecars are preserved, directories only grow, the planned
output directory exists afterwards, and the outcome is a wrong-type skip
(file map untouched), a duplicate skip at some candidate (file map
untouched), or a transfer to the first free candidate (the file map agrees
with a single `setFile` on every non-sidecar path; sidecar copies may
additionally touch `.xmp`-named paths). -/
theorem process_file_copy_spec (cfg : Config) (fs : FS) (file : String)
    (exif : Option ExifData) (date : Option DateInfo) (fuel : Nat)
    (r : Outcome × FS × List Event) (sc : Content)
    (hmove : cfg.move = false) (hlink : cfg.link = false) (hdry : cfg.dry_run = false)
    (hxmpf : pyEndsWith file ".xmp" = false)
    (hsrc : fs.files file = some sc)
    (hnx : ∀ k, 1 ≤ k → k ≤ fuel → pyEndsWith (nthCandidate
        (get_file_name_and_path cfg fs file exif date).1.path k) ".xmp" = false)
    (hr : process_file cfg fs file exif date fuel = some r) :
    preservesNonXmp fs r.2.1 ∧ preservesDirs fs r.2.1 ∧
    r.2.1.dirs ((get_file_name_and_path cfg fs file exif date).1.output) = true ∧
    ((cfg.file_type ≠ exifType exif ∧ cfg.file_type ≠ none ∧
        r.1 = .skippedWrongType ∧ r.2.1.files = fs.files) ∨
     (¬(cfg.file_type ≠ exifType exif ∧ cfg.file_type ≠ none) ∧
       ∃ k, 1 ≤ k ∧ k ≤ fuel ∧
        (∀ j, 1 ≤ j → j < k → ∃ tc, fs.files (nthCandidate
            (get_file_name_and_path cfg fs file exif date).1.path j) = some tc ∧
          checksum tc ≠ checksum sc) ∧
        ((∃ tc, fs.files (nthCandidate
              (get_file_name_and_path cfg fs file exif date).1.path k) = some tc ∧
            checksum tc = checksum sc ∧
            r.1 = .skippedDuplicate (nthCandidate
              (get_file_name_and_path cfg fs file exif date).1.path k) ∧
            r.2.1.files = fs.files) ∨
         (fs.files (nthCandidate
              (get_file_name_and_path cfg fs file exif date).1.path k) = none ∧
           r.1 = .transferred (nthCandidate
              (get_file_name_and_path cfg fs file exif date).1.path k) k ∧
           (∀ q, pyEndsWith q ".xmp" = false → r.2.1.files q =
             (fs.setFile (nthCandidate
               (get_file_name_and_path cfg fs file exif date).1.path k) sc).files q))))) := by
  unfold process_file at hr
  rw [hxmpf] at hr
  simp only [Bool.false_eq_true, if_false] at hr
  rw [Option.map_eq_some'] at hr
  obtain ⟨r', hr', rfl⟩ := hr
  have hplanfiles := plan_files cfg fs file exif date
  have hPsrc : ((get_file_name_and_path cfg fs file exif date).2.1).files file = some sc := by
    rw [hplanfiles]; exact hsrc
  by_cases hmis : cfg.file_type ≠ exifType exif ∧ cfg.file_type ≠ none
  · -- wrong type: the first loop iteration skips
    cases fuel with
    | zero => exact absurd hr' (by simp [process_file_loop])
    | succ f =>
      unfold process_file_loop at hr'
      rw [if_pos (by rw [plan_ftype]; exact hmis)] at hr'
      obtain rfl := (Option.some.inj hr').symm
      dsimp only
      refine ⟨?_, ?_, ?_, Or.inl ⟨hmis.1, hmis.2, rfl, hplanfiles⟩⟩
      · intro q c _ hq
        rw [hplanfiles]; exact hq
      · intro q hq
        exact plan_dirs_mono cfg fs file exif date q hq
      · exact plan_ensures_dir cfg fs file exif date hdry
  · have hcond : ¬(cfg.file_type ≠ (get_file_name_and_path cfg fs file exif date).1.ftype ∧
        cfg.file_type ≠ none) := by
      rw [plan_ftype]; exact hmis
    rw [show (get_file_name_and_path cfg fs file exif date).1.path =
        nthCandidate (get_file_name_and_path cfg fs file exif date).1.path 1 from
        (nthCandidate_one _).symm] at hr'
    obtain ⟨k, hk1, hk2, hfront, hend⟩ := loop_exact cfg
      (get_file_name_and_path cfg fs file exif date).1 file sc hmove hlink hdry hcond
      fuel 1 (get_file_name_and_path cfg fs file exif date).2.1 r' (le_refl 1)
      hPsrc (fun k h1 h2 => hnx k h1 (by omega)) hr'
    have hfront2 : ∀ j, 1 ≤ j → j < k → ∃ tc, fs.files (nthCandidate
        (get_file_name_and_path cfg fs file exif date).1.path j) = some tc ∧
        checksum tc ≠ checksum sc := by
      intro j h1 h2
      obtain ⟨tc, htc, hne⟩ := hfront j h1 h2
      rw [hplanfiles] at htc
      exact ⟨tc, htc, hne⟩
    rcases hend with ⟨tc, htc, hck, hout, hfs, _⟩ | ⟨hfree, hout, hfsq, hdirs⟩
    · rw [hplanfiles] at htc
      rw [hfs]
      refine ⟨?_, ?_, ?_, Or.inr ⟨hmis, k, hk1, by omega, hfront2,
        Or.inl ⟨tc, htc, hck, hout, hplanfiles⟩⟩⟩
      · intro q c _ hq
        rw [hplanfiles]; exact hq
      · intro q hq
        exact plan_dirs_mono cfg fs file exif date q hq
      · exact plan_ensures_dir cfg fs file exif date hdry
    · rw [hplanfiles] at hfree
      have hsetq : ∀ q, pyEndsWith q ".xmp" = false → r'.2.1.files q =
          ((fs.setFile (nthCandidate
            (get_file_name_and_path cfg fs file exif date).1.path k) sc).files) q := by
        intro q hq
        rw [hfsq q hq]
        unfold FS.setFile
        dsimp only
        by_cases hqe : q = nthCandidate
            (get_file_name_and_path cfg fs file exif date).1.path k
        · rw [if_pos hqe, if_pos hqe]
        · rw [if_neg hqe, if_neg hqe]
          exact congrFun hplanfiles q
      refine ⟨?_, ?_, ?_, Or.inr ⟨hmis, k, hk1, by omega, hfront2,
        Or.inr ⟨hfree, hout, hsetq⟩⟩⟩
      · intro q c hq hf
        rw [hsetq q hq]
        unfold FS.setFile
        dsimp only
        by_cases hqe : q = nthCandidate
            (get_file_name_and_path cfg fs file exif date).1.path k
        · rw [hqe, hfree] at hf
          exact absurd hf (by simp)
        · rw [if_neg hqe]
          exact hf
      · intro q hq
        rw [hdirs]
        exact plan_dirs_mono cfg fs file exif date q hq
      · rw [hdirs]
        exact plan_ensures_dir cfg fs file exif date hdry

theorem process_file_replay_wrongType (cfg : Config) (g : FS) (file : String)
    (exif : Option ExifData) (date : Option DateInfo) (fuel : Nat)
    (hxmpf : pyEndsWith file ".xmp" = false)
    (hmis : cfg.file_type ≠ exifType exif ∧ cfg.file_type ≠ none)
    (hdir : g.dirs ((get_file_name_and_path cfg g file exif date).1.output) = true)
    (hfuel : 1 ≤ fuel) :
    ∃ evs, process_file cfg g file exif date fuel =
        some (.skippedWrongType, g, evs) ∧
      ∀ e ∈ evs, eventTransfers e = false := by
  cases fuel with
  | zero => omega
  | succ f =>
    have hnoop := plan_noop cfg g file exif date hdir
    have hloop : process_file_loop cfg (get_file_name_and_path cfg g file exif date).1 file
        (get_file_name_and_path cfg g file exif date).2.1 1
        ((get_file_name_and_path cfg g file exif date).1.path) (f + 1) =
        some (.skippedWrongType, (get_file_name_and_path cfg g file exif date).2.1,
          [.report (" => skipped, file is " ++
            ftStr (get_file_name_and_path cfg g file exif date).1.ftype ++
            " but should be " ++ ftStr cfg.file_type)]) := by
      unfold process_file_loop
      rw [if_pos (by rw [plan_ftype]; exact hmis)]
    refine ⟨Event.report file :: ((get_file_name_and_path cfg g file exif date).2.2 ++
      [.report (" => skipped, file is " ++
        ftStr (get_file_name_and_path cfg g file exif date).1.ftype ++
        " but should be " ++ ftStr cfg.file_type)]), ?_, ?_⟩
    · unfold process_file
      rw [hxmpf]
      simp only [Bool.false_eq_true, if_false]
      rw [hloop]
      rw [hnoop]
      rfl
    · intro e he
      simp at he
      rcases he with rfl | he | rfl
      · rfl
      · exact (plan_events cfg g file exif date e he).2
      · rfl

theorem process_file_replay_dup (cfg : Config) (g : FS) (file : String)
    (exif : Option ExifData) (date : Option DateInfo) (fuel : Nat)
    (sc : Content) (k : Nat)
    (hxmpf : pyEndsWith file ".xmp" = false)
    (htypepass : ¬(cfg.file_type ≠ exifType exif ∧ cfg.file_type ≠ none))
    (hsrc : g.files file = some sc)
    (hdir : g.dirs ((get_file_name_and_path cfg g file exif date).1.output) = true)
    (hk1 : 1 ≤ k) (hk2 : k ≤ fuel)
    (hfront : ∀ j, 1 ≤ j → j < k → ∃ tc, g.files (nthCandidate
        (get_file_name_and_path cfg g file exif date).1.path j) = some tc ∧
      checksum tc ≠ checksum sc)
    (hkeq : ∃ tc, g.files (nthCandidate
        (get_file_name_and_path cfg g file exif date).1.path k) = some tc ∧
      checksum tc = checksum sc) :
    ∃ evs, process_file cfg g file exif date fuel =
        some (.skippedDuplicate (nthCandidate
          (get_file_name_and_path cfg g file exif date).1.path k), g, evs) ∧
      ∀ e ∈ evs, eventTransfers e = false := by
  have hnoop := plan_noop cfg g file exif date hdir
  have hcond : ¬(cfg.file_type ≠ (get_file_name_and_path cfg g file exif date).1.ftype ∧
      cfg.file_type ≠ none) := by
    rw [plan_ftype]; exact htypepass
  obtain ⟨evs', hev', hevp⟩ := loop_dup cfg
    (get_file_name_and_path cfg g file exif date).1 file sc hcond fuel k 1
    (get_file_name_and_path cfg g file exif date).2.1 (le_refl 1) hk1 (by omega)
    (by rw [hnoop]; exact hsrc)
    (by intro j h1 h2; rw [hnoop]; exact hfront j h1 h2)
    (by rw [hnoop]; exact hkeq)
  refine ⟨Event.report file :: ((get_file_name_and_path cfg g file exif date).2.2 ++ evs'),
    ?_, ?_⟩
  · unfold process_file
    rw [hxmpf]
    simp only [Bool.false_eq_true, if_false]
    nth_rewrite 1 [show (get_file_name_and_path cfg g file exif date).1.path =
        nthCandidate (get_file_name_and_path cfg g file exif date).1.path 1 from
        (nthCandidate_one _).symm]
    rw [hev']
    rw [hnoop]
    rfl
  · intro e he
    simp at he
    rcases he with rfl | he | he
    · rfl
    · exact (plan_events cfg g file exif date e he).2
    · exact hevp e he

/-- Master induction for a copy-mode walk and its replay.  Run 1, started
from any state reachable from `fs0` without disturbing non-sidecar files
or directories, preserves non-sidecar files and directories; and for any
state `g` that further preserves run 1's final non-sidecar files and
directories, run 2 over the same list returns `g` unchanged, emits no
transfer event, and reports at each position where run 1 transferred a
duplicate skip of the same target.  Each listed file must be a sidecar
source, an ignored name, or a present source none of whose collision
candidates is named like a sidecar. -/
theorem walk_copy_run (cfg : Config) (meta : String → Option ExifData)
    (dates : String → Option DateInfo) (fuel : Nat) (fs0 : FS)
    (hmove : cfg.move = false) (hlink : cfg.link = false) (hdry : cfg.dry_run = false) :
    ∀ (S : List String) (fs : FS) (r : FS × List Outcome × List Event),
      preservesNonXmp fs0 fs → preservesDirs fs0 fs →
      (∀ f ∈ S, pyEndsWith f ".xmp" = true ∨
        ignored_files.contains (basename f) = true ∨
        ((∃ c, fs0.files f = some c) ∧
          ∀ k, 1 ≤ k → k ≤ fuel → pyEndsWith (nthCandidate
            (get_file_name_and_path cfg fs0 f (meta f) (dates f)).1.path k) ".xmp" =
            false)) →
      walk_directory cfg meta dates fuel fs S = some r →
      (preservesNonXmp fs r.1 ∧ preservesDirs fs r.1) ∧
      (∀ g : FS, preservesNonXmp r.1 g → preservesDirs r.1 g →
        ∃ outs2 evs2, walk_directory cfg meta dates fuel g S = some (g, outs2, evs2) ∧
          (∀ e ∈ evs2, eventTransfers e = false) ∧
          (∀ i t n, r.2.1.get? i = some (.transferred t n) →
            outs2.get? i = some (.skippedDuplicate t))) := by
  intro S
  induction S with
  | nil =>
    intro fs r hpf hpd hS hr
    obtain rfl := (Option.some.inj hr).symm
    refine ⟨⟨preservesNonXmp_refl fs, preservesDirs_refl fs⟩, ?_⟩
    intro g hg1 hg2
    exact ⟨[], [], rfl, by intro e he; simp at he, by intro i t n hi; simp at hi⟩
  | cons f rest ih =>
    intro fs r hpf hpd hS hr
    unfold walk_directory at hr
    split at hr
    case _ hig =>
      -- housekeeping file: skipped without an outcome from process_file
      rw [Option.map_eq_some'] at hr
      obtain ⟨r', hr', rfl⟩ := hr
      obtain ⟨⟨hi1, hi2⟩, hrep⟩ := ih fs r' hpf hpd
        (fun x hx => hS x (by simp [hx])) hr'
      refine ⟨⟨hi1, hi2⟩, ?_⟩
      intro g hg1 hg2
      obtain ⟨outs2, evs2, hw2, hp2, hal2⟩ := hrep g hg1 hg2
      refine ⟨Outcome.ignoredFile :: outs2, evs2, ?_, hp2, ?_⟩
      · unfold walk_directory
        rw [hig, hw2]
        rfl
      · intro i t n hi
        cases i with
        | zero => simp at hi
        | succ i => exact hal2 i t n (by simpa using hi)
    case _ hig =>
      split at hr
      · exact absurd hr (by simp)
      case _ out fs1 ev hp =>
        split at hr
        case _ houtu =>
          -- an uncaught abort: show it cannot happen under the hypotheses
          exfalso
          rcases hS f (by simp) with hxf | higf | ⟨⟨sc, hsc0⟩, hnx0⟩
          · unfold process_file at hp
            rw [hxf] at hp
            simp only [if_true] at hp
            have ho := congrArg Prod.fst (Option.some.inj hp)
            rw [houtu] at ho
            exact Outcome.noConfusion ho
          · exact absurd higf (by simpa using hig)
          · have hxmpf : pyEndsWith f ".xmp" = false := by
              cases hv : pyEndsWith f ".xmp"
              · rfl
              · exfalso
                unfold process_file at hp
                rw [hv] at hp
                simp only [if_true] at hp
                have ho := congrArg Prod.fst (Option.some.inj hp)
                rw [houtu] at ho
                exact Outcome.noConfusion ho
            have hsrc : fs.files f = some sc := hpf f sc hxmpf hsc0
            have hnx : ∀ k, 1 ≤ k → k ≤ fuel → pyEndsWith (nthCandidate
                (get_file_name_and_path cfg fs f (meta f) (dates f)).1.path k) ".xmp" =
                false := by
              intro k h1 h2
              rw [plan_fst_fs_indep cfg fs fs0 f (meta f) (dates f)]
              exact hnx0 k h1 h2
            obtain ⟨_, _, _, hdisj⟩ := process_file_copy_spec cfg fs f (meta f)
              (dates f) fuel (out, fs1, ev) sc hmove hlink hdry hxmpf hsrc hnx hp
            rcases hdisj with ⟨_, _, ho, _⟩ | ⟨_, k, _, _, _, hend⟩
            · rw [houtu] at ho
              exact Outcome.noConfusion ho
            · rcases hend with ⟨_, _, _, ho, _⟩ | ⟨_, ho, _⟩ <;>
                (rw [houtu] at ho; exact Outcome.noConfusion ho)
        case _ houtu =>
          rw [Option.map_eq_some'] at hr
          obtain ⟨r', hr', rfl⟩ := hr
          have hcontf : ignored_files.contains (basename f) = false := by
            cases hv : ignored_files.contains (basename f)
            · rfl
            · exact absurd hv (by simpa using hig)
          by_cases hvx : pyEndsWith f ".xmp" = true
          · -- a sidecar source: skipped as an xmp file in both runs
            have hpv : process_file cfg fs f (meta f) (dates f) fuel =
                some (.skippedXmpFile, fs, []) := by
              unfold process_file
              rw [hvx]
              simp only [if_true]
            rw [hpv] at hp
            have h1 := congrArg Prod.fst (Option.some.inj hp)
            have h2 := congrArg (fun x => x.2.1) (Option.some.inj hp)
            have h3 := congrArg (fun x => x.2.2) (Option.some.inj hp)
            dsimp only at h1 h2 h3
            rw [← h2] at hr'
            obtain ⟨⟨hi1, hi2⟩, hrep⟩ := ih fs r' hpf hpd
              (fun x hx => hS x (by simp [hx])) hr'
            refine ⟨⟨hi1, hi2⟩, ?_⟩
            intro g hg1 hg2
            obtain ⟨outs2, evs2, hw2, hp2, hal2⟩ := hrep g hg1 hg2
            have hpgv : process_file cfg g f (meta f) (dates f) fuel =
                some (.skippedXmpFile, g, []) := by
              unfold process_file
              rw [hvx]
              simp only [if_true]
            refine ⟨.skippedXmpFile :: outs2, evs2, ?_, hp2, ?_⟩
            · rw [walk_cons_continue cfg meta dates fuel g f rest _ _ _ hcontf hpgv
                (by intro hc; exact Outcome.noConfusion hc), hw2]
              rfl
            · intro i t n hi
              cases i with
              | zero =>
                exfalso
                simp only [List.get?] at hi
                rw [← h1] at hi
                exact Outcome.noConfusion (Option.some.inj hi)
              | succ i => exact hal2 i t n (by simpa using hi)
          · have hxmpf : pyEndsWith f ".xmp" = false := by
              cases hv : pyEndsWith f ".xmp"
              · rfl
              · exact absurd hv hvx
            rcases hS f (by simp) with hxf | higf | ⟨⟨sc, hsc0⟩, hnx0⟩
            · exact absurd hxf hvx
            · exact absurd higf (by simpa using hig)
            · have hsrc : fs.files f = some sc := hpf f sc hxmpf hsc0
              have hnx : ∀ k, 1 ≤ k → k ≤ fuel → pyEndsWith (nthCandidate
                  (get_file_name_and_path cfg fs f (meta f) (dates f)).1.path k) ".xmp" =
                  false := by
                intro k h1 h2
                rw [plan_fst_fs_indep cfg fs fs0 f (meta f) (dates f)]
                exact hnx0 k h1 h2
              obtain ⟨hpf1, hpd1, hdir1, hdisj⟩ := process_file_copy_spec cfg fs f
                (meta f) (dates f) fuel (out, fs1, ev) sc hmove hlink hdry hxmpf hsrc
                hnx hp
              dsimp only at hpf1 hpd1 hdir1 hdisj
              obtain ⟨⟨hi1, hi2⟩, hrep⟩ := ih fs1 r'
                (preservesNonXmp_trans hpf hpf1) (preservesDirs_trans hpd hpd1)
                (fun x hx => hS x (by simp [hx])) hr'
              have hfuel : 1 ≤ fuel := by
                rcases Nat.eq_zero_or_pos fuel with h0 | h
                · exfalso
                  rw [h0] at hp
                  unfold process_file at hp
                  rw [hxmpf] at hp
                  simp [process_file_loop] at hp
                · exact h
              refine ⟨⟨preservesNonXmp_trans hpf1 hi1, preservesDirs_trans hpd1 hi2⟩, ?_⟩
              intro g hg1 hg2
              obtain ⟨outs2, evs2, hw2, hp2, hal2⟩ := hrep g hg1 hg2
              have hgf : preservesNonXmp fs1 g := preservesNonXmp_trans hi1 hg1
              have hgd : preservesDirs fs1 g := preservesDirs_trans hi2 hg2
              have hplg : (get_file_name_and_path cfg g f (meta f) (dates f)).1 =
                  (get_file_name_and_path cfg fs f (meta f) (dates f)).1 :=
                plan_fst_fs_indep cfg g fs f (meta f) (dates f)
              have hsrcg : g.files f = some sc := hgf f sc hxmpf (hpf1 f sc hxmpf hsrc)
              have hdirg : g.dirs
                  ((get_file_name_and_path cfg g f (meta f) (dates f)).1.output) = true := by
                rw [hplg]
                exact hgd _ hdir1
              rcases hdisj with ⟨hm1, hm2, hout, _⟩ | ⟨hpass, k, hk1, hk2, hfront, hend⟩
              · -- wrong type in run 1: wrong type again in run 2
                obtain ⟨evsf, hpg, hpge⟩ := process_file_replay_wrongType cfg g f (meta f)
                  (dates f) fuel hxmpf ⟨hm1, hm2⟩ hdirg hfuel
                refine ⟨.skippedWrongType :: outs2, evsf ++ evs2, ?_, ?_, ?_⟩
                · rw [walk_cons_continue cfg meta dates fuel g f rest _ _ _ hcontf hpg
                    (by intro hc; exact Outcome.noConfusion hc), hw2]
                  rfl
                · intro e he
                  rcases List.mem_append.mp he with he | he
                  · exact hpge e he
                  · exact hp2 e he
                · intro i t n hi
                  cases i with
                  | zero =>
                    exfalso
                    simp only [List.get?] at hi
                    rw [hout] at hi
                    exact Outcome.noConfusion (Option.some.inj hi)
                  | succ i => exact hal2 i t n (by simpa using hi)
              · have hfrontg : ∀ j, 1 ≤ j → j < k → ∃ tc, g.files (nthCandidate
                    (get_file_name_and_path cfg g f (meta f) (dates f)).1.path j) =
                    some tc ∧ checksum tc ≠ checksum sc := by
                  intro j h1 h2
                  obtain ⟨tc, htc, hne⟩ := hfront j h1 h2
                  have hjx : pyEndsWith (nthCandidate
                      (get_file_name_and_path cfg fs f (meta f) (dates f)).1.path j)
                      ".xmp" = false := hnx j h1 (by omega)
                  rw [hplg]
                  exact ⟨tc, hgf _ tc hjx (hpf1 _ tc hjx htc), hne⟩
                rcases hend with ⟨tc, htc, hck, hout, _⟩ | ⟨hfree, hout, hfiles⟩
                · -- duplicate in run 1: duplicate again in run 2
                  have hkx : pyEndsWith (nthCandidate
                      (get_file_name_and_path cfg fs f (meta f) (dates f)).1.path k)
                      ".xmp" = false := hnx k hk1 hk2
                  obtain ⟨evsf, hpg, hpge⟩ := process_file_replay_dup cfg g f (meta f)
                    (dates f) fuel sc k hxmpf hpass hsrcg hdirg hk1 hk2 hfrontg
                    (by rw [hplg]; exact ⟨tc, hgf _ tc hkx (hpf1 _ tc hkx htc), hck⟩)
                  refine ⟨Outcome.skippedDuplicate (nthCandidate
                    (get_file_name_and_path cfg g f (meta f)
                      (dates f)).1.path k) :: outs2, evsf ++ evs2, ?_, ?_, ?_⟩
                  · rw [walk_cons_continue cfg meta dates fuel g f rest _ _ _ hcontf hpg
                      (by intro hc; exact Outcome.noConfusion hc), hw2]
                    rfl
                  · intro e he
                    rcases List.mem_append.mp he with he | he
                    · exact hpge e he
                    · exact hp2 e he
                  · intro i t n hi
                    cases i with
                    | zero =>
                      exfalso
                      simp only [List.get?] at hi
                      rw [hout] at hi
                      exact Outcome.noConfusion (Option.some.inj hi)
                    | succ i => exact hal2 i t n (by simpa using hi)
                · -- transferred in run 1: duplicate at the same target in run 2
                  have hkx : pyEndsWith (nthCandidate
                      (get_file_name_and_path cfg fs f (meta f) (dates f)).1.path k)
                      ".xmp" = false := hnx k hk1 hk2
                  have hfs1k : fs1.files (nthCandidate
                      (get_file_name_and_path cfg fs f (meta f) (dates f)).1.path k) =
                      some sc := by
                    rw [hfiles _ hkx]
                    unfold FS.setFile
                    dsimp only
                    rw [if_pos rfl]
                  obtain ⟨evsf, hpg, hpge⟩ := process_file_replay_dup cfg g f (meta f)
                    (dates f) fuel sc k hxmpf hpass hsrcg hdirg hk1 hk2 hfrontg
                    (by rw [hplg]; exact ⟨sc, hgf _ sc hkx hfs1k, rfl⟩)
                  refine ⟨Outcome.skippedDuplicate (nthCandidate
                    (get_file_name_and_path cfg g f (meta f)
                      (dates f)).1.path k) :: outs2, evsf ++ evs2, ?_, ?_, ?_⟩
                  · rw [walk_cons_continue cfg meta dates fuel g f rest _ _ _ hcontf hpg
                      (by intro hc; exact Outcome.noConfusion hc), hw2]
                    rfl
                  · intro e he
                    rcases List.mem_append.mp he with he | he
                    · exact hpge e he
                    · exact hp2 e he
                  · intro i t n hi
                    cases i with
                    | zero =>
                      simp only [List.get?] at hi
                      rw [hout] at hi
                      have hinj := Option.some.inj hi
                      have ht : t = nthCandidate
                          (get_file_name_and_path cfg fs f (meta f) (dates f)).1.path k := by
                        cases hinj
                        rfl
                      simp only [List.get?]
                      rw [hplg, ht]
                    | succ i => exact hal2 i t n (by simpa using hi)

/-- C6: In copy mode (move and link both off, not a dry run), running the
walk a second time over the same file list, starting from the filesystem
produced by a successful first run, succeeds with the filesystem
unchanged, performs no transfer (copy/move/link) events, and reports every
file the first run transferred as a duplicate skip of the same target
path.  Primaries may carry `.xmp` sidecars: the first run copies them, and
the second run never re-copies them because the duplicate skip of the
primary fires before the sidecar handler runs.  Hypotheses restrict to
stable inputs: each listed file is either a `.xmp` sidecar source, an
ignored housekeeping name, or a source present in the input whose
collision candidates never end in `.xmp`. -/
theorem C6_idempotent (cfg : Config) (meta : String → Option ExifData)
    (dates : String → Option DateInfo) (fuel : Nat) (fs0 : FS) (S : List String)
    (hmove : cfg.move = false) (hlink : cfg.link = false) (hdry : cfg.dry_run = false)
    (HS : ∀ f ∈ S, pyEndsWith f ".xmp" = true ∨
      ignored_files.contains (basename f) = true ∨
      ((∃ c, fs0.files f = some c) ∧
        ∀ k, 1 ≤ k → k ≤ fuel → pyEndsWith (nthCandidate
          (get_file_name_and_path cfg fs0 f (meta f) (dates f)).1.path k) ".xmp" = false))
    (hsome : (walk_directory cfg meta dates fuel fs0 S).isSome = true) :
    ∃ outs2 evs2,
      walk_directory cfg meta dates fuel
        (wFS fs0 (walk_directory cfg meta dates fuel fs0 S)) S =
        some (wFS fs0 (walk_directory cfg meta dates fuel fs0 S), outs2, evs2) ∧
      (∀ e ∈ evs2, eventTransfers e = false) ∧
      (∀ i t n, (wOuts (walk_directory cfg meta dates fuel fs0 S)).get? i =
          some (.transferred t n) →
        outs2.get? i = some (.skippedDuplicate t)) := by
  rw [Option.isSome_iff_exists] at hsome
  obtain ⟨r, hr⟩ := hsome
  obtain ⟨_, hrep⟩ := walk_copy_run cfg meta dates fuel fs0 hmove hlink hdry S fs0 r
    (preservesNonXmp_refl fs0) (preservesDirs_refl fs0) HS hr
  obtain ⟨outs2, evs2, hw2, hp2, hal2⟩ := hrep r.1 (preservesNonXmp_refl r.1)
    (preservesDirs_refl r.1)
  rw [hr]
  exact ⟨outs2, evs2, hw2, hp2, hal2⟩

def metaC6 : String → Option ExifData := fun _ => some ⟨some "image/jpeg"⟩

def datesC6 : String → Option DateInfo := fun _ => some date0

/-- A RAW image with both sidecar styles on disk next to it. -/
def fsC6 : FS := fsOf
  [("/in/DSC001.CR2", 1), ("/in/DSC001.CR2.xmp", 2), ("/in/DSC001.xmp", 3)] ["o"]

def SC6 : List String := ["/in/DSC001.CR2", "/in/DSC001.CR2.xmp", "/in/DSC001.xmp"]

theorem C6_idempotent_witness :
    (cfgCopy.move = false) ∧ (cfgCopy.link = false) ∧ (cfgCopy.dry_run = false) ∧
    ((walk_directory cfgCopy metaC6 datesC6 3 fsC6 SC6).isSome = true) ∧
    (wOuts (walk_directory cfgCopy metaC6 datesC6 3 fsC6 SC6) =
      [.transferred "o/2021/06/15/20210615-102030.cr2" 1,
        .skippedXmpFile, .skippedXmpFile]) ∧
    ((wFS fsC6 (walk_directory cfgCopy metaC6 datesC6 3 fsC6 SC6)).files
      "o/2021/06/15/20210615-102030.cr2.xmp" = some 2) ∧
    ((wFS fsC6 (walk_directory cfgCopy metaC6 datesC6 3 fsC6 SC6)).files
      "o/2021/06/15/20210615-102030.xmp" = some 3) ∧
    (∃ outs2 evs2,
      walk_directory cfgCopy metaC6 datesC6 3
        (wFS fsC6 (walk_directory cfgCopy metaC6 datesC6 3 fsC6 SC6)) SC6 =
        some (wFS fsC6 (walk_directory cfgCopy metaC6 datesC6 3 fsC6 SC6),
          outs2, evs2) ∧
      (∀ e ∈ evs2, eventTransfers e = false) ∧
      (∀ i t n, (wOuts (walk_directory cfgCopy metaC6 datesC6 3 fsC6 SC6)).get? i =
          some (.transferred t n) →
        outs2.get? i = some (.skippedDuplicate t))) := by
  refine ⟨by decide, by decide, by decide, by decide, by decide, by decide, by decide, ?_⟩
  refine C6_idempotent cfgCopy metaC6 datesC6 3 fsC6 SC6 (by decide) (by decide)
    (by decide) ?_ (by decide)
  intro f hf
  unfold SC6 at hf
  simp only [List.mem_cons, List.not_mem_nil, or_false] at hf
  rcases hf with rfl | rfl | rfl
  · refine Or.inr (Or.inr ⟨⟨1, by decide⟩, ?_⟩)
    intro k h1 h2
    interval_cases k <;> decide
  · exact Or.inl (by decide)
  · exact Or.inl (by decide)
